import Mathlib

/-!
Verification of the attendance reconciliation and delay-computation engine
of `src/app.py` against its specification.

Modelling conventions (shallow embedding):

* A Python `datetime` is represented as a natural number of whole seconds
  since the epoch, with days of 86400 seconds.  The date (midnight) of a
  datetime `t` is `t / 86400 * 86400`, `datetime.combine(d, tod)` is
  `d + tod`, and `date.weekday()` for a date `d` (seconds) is
  `(d / 86400 + 3) % 7` (1970-01-01 was a Thursday; Monday = 0 as in
  Python).  Stored timestamps are modelled at whole-second resolution, the
  resolution at which the application itself writes them
  (`datetime.combine(date, strptime(v, "%H:%M:%S")).isoformat()`); at this
  resolution the source's `round(...)` and `math.ceil(...)` on
  `timedelta.total_seconds()` are both the identity and are noted where
  they occur.

* A JSON attendance row (a Python dict) is modelled by the structure `Rec`
  below.  A time field (`checkin` / `checkout` / `timestamp`) is modelled
  as `Option (Option Nat)`: `none` means the key is absent from the dict,
  `some none` means the key is present but its value is the empty string
  or a string `parse_ts` cannot parse, and `some (some t)` means the value
  is a string that `parse_ts` parses to the datetime `t`.  This collapses
  distinct raw strings with the same parse outcome; every operation the
  claims mention observes stored time values only through `parse_ts`
  (or leaves them untouched), except for the secondary sort key of the
  update/add endpoints, which is discussed at `upd_sort_le` below.

* Python dicts keyed by strings (the faculty-detail table, the sync
  tracking map) are modelled as association lists with `List.lookup`.

* Each HTTP mutation handler is modelled, from the body of its source
  function, as a pure function from (faculty table, request, current
  day-file contents) to (outcome, day-file contents after the request).
  The second component equals the input list exactly when the handler
  returns without writing the file.  Authentication, JSON transport and
  the existence check of the day file are outside the modelled fragment;
  the request's date string is modelled as an already-parsed valid date
  (seconds of its midnight).
-/

/-! ### Python string primitives -/

/-- The six ASCII whitespace characters removed by Python's `str.strip()`. -/
def isPySpace (c : Char) : Bool :=
  c == ' ' || c == '\t' || c == '\n' || c == '\x0b' || c == '\x0c' || c == '\r'

/-- Python `str.strip()`. -/
def pyStrip (s : String) : String :=
  ⟨((s.data.dropWhile isPySpace).reverse.dropWhile isPySpace).reverse⟩

/-- Python `str.upper()` (ASCII letters, the only case the data uses). -/
def pyUpper (s : String) : String := ⟨s.data.map Char.toUpper⟩

/-- Python `str.lower()` (ASCII letters, the only case the data uses). -/
def pyLower (s : String) : String := ⟨s.data.map Char.toLower⟩

/-- Does `pat` start `l`? (helper for substring containment). -/
def startsWithChars : List Char → List Char → Bool
  | [], _ => true
  | _ :: _, [] => false
  | a :: as, b :: bs => a == b && startsWithChars as bs

/-- Does `pat` occur somewhere in `hay`? -/
def occursIn (pat : List Char) : List Char → Bool
  | [] => pat.isEmpty
  | c :: rest => startsWithChars pat (c :: rest) || occursIn pat rest

/-- Python's `pat in s` substring test. -/
def strContains (s pat : String) : Bool := occursIn pat.data s.data

/-! ### Time parsing and formatting -/

/-- Split a character list at every occurrence of `sep`. -/
def splitOnChar (sep : Char) : List Char → List (List Char)
  | [] => [[]]
  | c :: rest =>
    let r := splitOnChar sep rest
    if c == sep then [] :: r
    else (c :: r.headD []) :: r.tail

/-- One field of `strptime(s, "%H:%M:%S")`: one or two ASCII digits whose
value is at most `maxv` (the regex `_strptime` builds accepts `2[0-3]|[0-1]\d|\d`
for `%H` and `[0-5]\d|\d` for `%M`/`%S`, i.e. exactly the 1-2 digit numerals
up to the field maximum). -/
def parseField2 (l : List Char) (maxv : Nat) : Option Nat :=
  if l.length = 0 || 2 < l.length || !(l.all Char.isDigit) then none
  else
    let v := l.foldl (fun a c => a * 10 + (c.toNat - 48)) 0
    if v ≤ maxv then some v else none

/-- Embeds `datetime.strptime(s, "%H:%M:%S").time()` as seconds after
midnight; `none` when `strptime` raises `ValueError`.  (Non-ASCII digit
numerals, which CPython's regex would also accept, are outside the model.) -/
def parseHMS (s : String) : Option Nat :=
  match splitOnChar ':' s.data with
  | [h, m, sec] =>
    match parseField2 h 23, parseField2 m 59, parseField2 sec 59 with
    | some hv, some mv, some sv => some (hv * 3600 + mv * 60 + sv)
    | _, _, _ => none
  | _ => none

/-- Python `f"{n:02d}"`. -/
def pad2 (n : Nat) : String := if n < 10 then "0" ++ toString n else toString n

/-- Embeds `_seconds_to_hhmmss` (src/app.py:222): clamps negatives to zero,
then formats as zero-padded `HH:MM:SS`. -/
def seconds_to_hhmmss (total : Int) : String :=
  let t : Nat := total.toNat
  pad2 (t / 3600) ++ ":" ++ pad2 (t % 3600 / 60) ++ ":" ++ pad2 (t % 60)

/-- `datetime.strftime('%H:%M:%S')` for a datetime `t` (seconds since epoch). -/
def strftimeHMS (t : Nat) : String :=
  pad2 (t % 86400 / 3600) ++ ":" ++ pad2 (t % 86400 % 3600 / 60) ++ ":" ++ pad2 (t % 60)

/-! ### Staff classifier and thresholds -/

/-- One value of the `faculty_detail.json` table.  A missing `name` /
`category` / `department` key is represented by `""`; the code reads each
of them as `details.get(k) or ''` so the two cases are indistinguishable. -/
structure Faculty where
  name : String
  category : String
  department : String
deriving DecidableEq

/-- Embeds `determine_staff_type` (src/app.py:163).  `table` is the cached
`faculty_detail.json` dict, modelled as an association list. -/
def determine_staff_type (table : List (String × Faculty)) (faculty_id : String) : String :=
  let details := table.lookup (pyUpper (pyStrip faculty_id))
  let category := pyLower (pyStrip ((details.map Faculty.category).getD ""))
  let department := pyLower (pyStrip ((details.map Faculty.department).getD ""))
  if category == "teaching faculty" then "teaching"
  else if strContains category "non-teaching" then
    if strContains department "computer applications" then "support"
    else if strContains department "support" then "support"
    else if strContains department "administrative" || strContains department "administration" then "admin"
    else "admin"
  else "teaching"

/-- `date.weekday()` (Monday = 0) for a datetime given in seconds since the
epoch, which fell on a Thursday. -/
def weekdayOf (t : Nat) : Nat := (t / 86400 + 3) % 7

/-- Embeds `get_thresholds_for` (src/app.py:188): `(checkin_deadline,
checkout_after)` as seconds after midnight. -/
def get_thresholds_for (date_secs : Nat) (staff_type : String) : Nat × Nat :=
  let is_saturday := weekdayOf date_secs == 5
  if staff_type == "teaching" then
    (9 * 3600 + 25 * 60, if is_saturday then 13 * 3600 else 16 * 3600 + 30 * 60)
  else if staff_type == "admin" then
    (9 * 3600 + 15 * 60, if is_saturday then 13 * 3600 + 30 * 60 else 17 * 3600 + 15 * 60)
  else
    (8 * 3600 + 30 * 60, if is_saturday then 13 * 3600 + 30 * 60 else 17 * 3600 + 15 * 60)

/-! ### Attendance records and the delay calculator -/

/-- One attendance row (a JSON dict).  See the header for the meaning of
the `Option (Option Nat)` time fields.  `student_id` is the raw string
(`""` for an absent or null key, which the code reads as
`row.get('student_id') or ''`); `delay` is `none` when the key is absent. -/
structure Rec where
  student_id : String
  name : String
  checkin : Option (Option Nat)
  checkout : Option (Option Nat)
  timestamp : Option (Option Nat)
  delay : Option String
deriving DecidableEq

/-- `parse_ts(row.get(k))`: an absent key gives `None`, a present but
empty/unparseable value gives `None`, otherwise the parsed datetime. -/
def fieldParse (f : Option (Option Nat)) : Option Nat := f.bind id

/-- The normalized id `(row.get('student_id') or '').strip().upper()`. -/
def recSid (r : Rec) : String := pyUpper (pyStrip r.student_id)

/-- Embeds `compute_daily_delay_for_records` (src/app.py:231).  At the
whole-second resolution of the model, the source's `round` (line 252) and
`math.ceil` (line 260) are the identity. -/
def compute_daily_delay_for_records (records : List Rec) (date_secs : Nat)
    (staff_type : String) : String :=
  let checkins := records.filterMap (fun r => fieldParse r.checkin)
  let checkouts := records.filterMap (fun r => fieldParse r.checkout)
  match checkins with
  | [] => seconds_to_hhmmss 0
  | c :: cs =>
    let earliest_in := cs.foldl min c
    let thresholds := get_thresholds_for date_secs staff_type
    let deadline_dt := earliest_in / 86400 * 86400 + thresholds.1
    let late_seconds := if deadline_dt < earliest_in then earliest_in - deadline_dt else 0
    match checkouts with
    | [] => seconds_to_hhmmss late_seconds
    | d :: ds =>
      let latest_out := ds.foldl max d
      let required_dt := latest_out / 86400 * 86400 + thresholds.2
      let early_leave_seconds := if latest_out < required_dt then required_dt - latest_out else 0
      seconds_to_hhmmss (late_seconds + early_leave_seconds)

/-- The delay value exactly as the sentence of claim C1 describes it:
`00:00:00` with no parseable checkin; otherwise lateness of the minimum
parseable checkin past the deadline, clamped at zero, plus (when a
parseable checkout exists) the earliness of the maximum parseable checkout
before the checkout-after time, clamped at zero. -/
def delay_spec (records : List Rec) (date_secs : Nat) (staff_type : String) : String :=
  let checkins := records.filterMap (fun r => fieldParse r.checkin)
  let checkouts := records.filterMap (fun r => fieldParse r.checkout)
  match checkins.min? with
  | none => "00:00:00"
  | some earliest =>
    let thresholds := get_thresholds_for date_secs staff_type
    let late : Int := max 0 ((earliest : Int) - ((earliest / 86400 * 86400 : Nat) + thresholds.1))
    match checkouts.max? with
    | none => seconds_to_hhmmss late
    | some latest =>
      seconds_to_hhmmss (late + max 0 (((latest / 86400 * 86400 : Nat) + thresholds.2 : Int) - latest))

/-! ### Annotation pipeline -/

/-- The per-row normalization of `annotate_file_with_delay`
(src/app.py:276-280): a row without a `checkin` key whose `timestamp` key
holds a string gets that value as its `checkin`; a missing `checkout` key
is defaulted to the empty string. -/
def normalize_row (r : Rec) : Rec :=
  let r1 :=
    match r.checkin, r.timestamp with
    | none, some ts => { r with checkin := some ts }
    | _, _ => r
  match r1.checkout with
  | none => { r1 with checkout := some none }
  | some _ => r1

/-- One row's delay assignment within `annotate_file_with_delay`
(src/app.py:287-291): the row receives the delay computed from all rows of
`data` sharing its normalized staff id (the source's grouping dict visits
each group in insertion order and mutates the grouped rows in place; since
every row belongs to exactly one group, the group is recovered by
`filter`). -/
def assignRow (table : List (String × Faculty)) (date_secs : Nat) (data : List Rec)
    (r : Rec) : Rec :=
  { r with
    delay := some (compute_daily_delay_for_records
      (data.filter (fun x => recSid x == recSid r)) date_secs
      (determine_staff_type table (recSid r))) }

/-- The grouping-and-assignment stage of `annotate_file_with_delay`
(src/app.py:281-291). -/
def annotate_assign (table : List (String × Faculty)) (date_secs : Nat)
    (data : List Rec) : List Rec :=
  data.map (assignRow table date_secs data)

/-- Embeds the data transformation of `annotate_file_with_delay`
(src/app.py:263): normalize every row, then group by normalized staff id
and assign to every row the delay computed from its whole group. -/
def annotate_records (table : List (String × Faculty)) (date_secs : Nat)
    (l : List Rec) : List Rec :=
  annotate_assign table date_secs (l.map normalize_row)

/-! ### Mutation endpoints -/

/-- Outcome of a mutation endpoint: the JSON response's `success` flag and
its `message`/`error` string. -/
inductive ApiOutcome where
  | ok (msg : String)
  | err (msg : String)
deriving DecidableEq

/-- Is the outcome a failure response? -/
def ApiOutcome.isErr : ApiOutcome → Bool
  | .ok _ => false
  | .err _ => true

/-- The body of an `/api/attendance/update` request.  `checkin`/`checkout`
are `none` when the key is absent from the posted JSON; `current_checkin` /
`current_checkout` are `data.get(k, '')`.  `date_secs` is the midnight of
the (valid) `date` field. -/
structure UpdateRequest where
  faculty_id : String
  date_secs : Nat
  checkin : Option String
  checkout : Option String
  current_checkin : String
  current_checkout : String

/-- `record_checkin_time` / `record_checkout_time` of the update handler
(src/app.py:510-517): the stored value re-formatted as `HH:MM:SS`, or `''`
when absent/empty/unparseable. -/
def fmtField (f : Option (Option Nat)) : String :=
  match f with
  | some (some t) => strftimeHMS t
  | _ => ""

/-- Setting a time field from a caller-supplied `HH:MM:SS` string
(src/app.py:572-598): empty clears the field, otherwise the parsed time is
combined with the request date; an unparseable value is a `ValueError`,
reported with the given message. -/
def applyTimeUpdate (date_secs : Nat) (v : String) (msg : String) :
    Except String (Option (Option Nat)) :=
  if v == "" then .ok (some none)
  else
    match parseHMS v with
    | some tod => .ok (some (some (date_secs + tod)))
    | none => .error msg

/-- The target-selection block of the update handler (src/app.py:499-567),
returning the position and value of the record the handler will mutate:
scan for the first record of the staff id whose re-formatted current value
matches the caller's claimed current value (checkin match for a checkin
update; checkout match, plus checkin match when a current checkin was
supplied, for a checkout update); fall back to the first record of the
staff id. -/
def resolve_target (fid : String) (req : UpdateRequest) (records : List Rec) :
    Option (Nat × Rec) :=
  let primary :=
    if req.checkin.isSome then
      records.enum.find? (fun x =>
        recSid x.2 == fid && fmtField x.2.checkin == req.current_checkin)
    else if req.checkout.isSome then
      records.enum.find? (fun x =>
        recSid x.2 == fid && fmtField x.2.checkout == req.current_checkout &&
          (req.current_checkin == "" || fmtField x.2.checkin == req.current_checkin))
    else none
  primary <|> records.enum.find? (fun x => recSid x.2 == fid)

/-- The boolean sort order used by the update and add endpoints
(src/app.py:649-653, 837-841): primarily the normalized staff id,
secondarily the raw stored `checkin` value.  The secondary key is modelled
through the field abstraction: an absent/empty/unparseable checkin (the
raw key `''` for the values the system itself writes) sorts before any
parsed timestamp, and parsed same-format timestamps sort chronologically,
as their ISO strings do. -/
def updKey (r : Rec) : Nat × Nat :=
  match r.checkin with
  | some (some t) => (1, t)
  | _ => (0, 0)

def upd_sort_le (r1 r2 : Rec) : Bool :=
  decide (recSid r1 < recSid r2) ||
    (recSid r1 == recSid r2 &&
      (decide ((updKey r1).1 < (updKey r2).1) ||
        ((updKey r1).1 == (updKey r2).1 && decide ((updKey r1).2 ≤ (updKey r2).2))))

/-- The sort order of the two delete endpoints (src/app.py:728, 935): the
normalized staff id alone. -/
def sid_sort_le (r1 r2 : Rec) : Bool := decide (recSid r1 ≤ recSid r2)

/-- The delay-recomputation block shared by the update and add handlers
(src/app.py:655-664, 843-852): recompute the day's delay from all records
of the staff id and assign it to each of them. -/
def reassignDelays (table : List (String × Faculty)) (fid : String) (date_secs : Nat)
    (records : List Rec) : List Rec :=
  let faculty_records := records.filter (fun r => recSid r == pyUpper fid)
  if faculty_records.isEmpty then records
  else
    let delay_val := compute_daily_delay_for_records faculty_records date_secs
      (determine_staff_type table fid)
    records.map (fun r => if recSid r == fid then { r with delay := some delay_val } else r)

/-- The fresh record synthesized by the update handler when the staff id
has no records (src/app.py:603-615), by the add handler (src/app.py:805-812)
and by the delete handlers as a placeholder (src/app.py:714-724, 917-927). -/
def fresh_record (table : List (String × Faculty)) (fid : String) : Rec :=
  { student_id := fid
    name := ((table.lookup (pyUpper fid)).map Faculty.name).getD ""
    checkin := some none
    checkout := some none
    timestamp := none
    delay := some "N/A" }

/-- The two sequential time-field updates of the update handler
(src/app.py:571-598 on a resolved record, duplicated verbatim at
src/app.py:617-643 on a synthesized record): apply the checkin update when
one was requested, then the checkout update, stopping at the first
`ValueError`. -/
def applyTimes (date_secs : Nat) (nci nco : Option String) (r : Rec) : Except String Rec := do
  let r1 ←
    match nci with
    | none => pure r
    | some v => do
      let fld ← applyTimeUpdate date_secs v "Invalid check-in time format. Use HH:MM:SS"
      pure { r with checkin := fld }
  match nco with
  | none => pure r1
  | some v => do
    let fld ← applyTimeUpdate date_secs v "Invalid check-out time format. Use HH:MM:SS"
    pure { r1 with checkout := fld }

/-- Embeds the body of `api_update_attendance` (src/app.py:455-673) as a
pure function; the returned list is the day file's contents after the
request (unchanged whenever the handler answers without writing). -/
def api_update_core (table : List (String × Faculty)) (req : UpdateRequest)
    (records : List Rec) : ApiOutcome × List Rec :=
  let fid := pyUpper (pyStrip req.faculty_id)
  if fid == "" then (.err "Faculty ID and date are required", records)
  else
    let new_checkin := req.checkin.map (fun s => if s == "" then "" else pyStrip s)
    let new_checkout := req.checkout.map (fun s => if s == "" then "" else pyStrip s)
    let applied : Except String (List Rec) :=
      match resolve_target fid { req with checkin := new_checkin, checkout := new_checkout }
          records with
      | some (i, r) => (applyTimes req.date_secs new_checkin new_checkout r).map (records.set i)
      | none =>
        (applyTimes req.date_secs new_checkin new_checkout (fresh_record table fid)).map
          (fun nr => records ++ [nr])
    match applied with
    | .error msg => (.err msg, records)
    | .ok updated =>
      let sorted := updated.mergeSort upd_sort_le
      (.ok "Attendance updated successfully", reassignDelays table fid req.date_secs sorted)

/-- Embeds the body of `api_delete_attendance` (src/app.py:676-742):
remove every record of the staff id, error when there was none, else
append a placeholder and re-sort by staff id. -/
def api_delete_core (table : List (String × Faculty)) (faculty_id : String)
    (records : List Rec) : ApiOutcome × List Rec :=
  let fid := pyUpper (pyStrip faculty_id)
  if fid == "" then (.err "Faculty ID and date are required", records)
  else
    let kept := records.filter (fun r => recSid r != fid)
    if records.length - kept.length == 0 then
      (.err "No records found", records)
    else
      (.ok "deleted", (kept ++ [fresh_record table fid]).mergeSort sid_sort_le)

/-- The body of an `/api/attendance/delete-specific` request.
`record_index` is `data.get('record_index', 0)` (a non-negative index in
the claims' scope). -/
structure DeleteSpecificRequest where
  faculty_id : String
  record_index : Nat

/-- Embeds the body of `api_delete_specific_attendance`
(src/app.py:867-948): drop the record at the given position among the
staff id's records, append a placeholder when none remain, re-sort by
staff id.  No delay is recomputed on this path. -/
def api_delete_specific_core (table : List (String × Faculty))
    (req : DeleteSpecificRequest) (records : List Rec) : ApiOutcome × List Rec :=
  let fid := pyUpper (pyStrip req.faculty_id)
  if fid == "" then (.err "Faculty ID and date are required", records)
  else
    let faculty_idxs := (records.enum.filter (fun x => recSid x.2 == pyUpper fid)).map (·.1)
    if faculty_idxs.isEmpty then (.err "No records found", records)
    else
      match faculty_idxs[req.record_index]? with
      | none => (.err "Invalid record index", records)
      | some actual =>
        let rest := records.eraseIdx actual
        let remaining := rest.filter (fun r => recSid r == pyUpper fid)
        let rest := if remaining.isEmpty then rest ++ [fresh_record table fid] else rest
        (.ok "deleted", rest.mergeSort sid_sort_le)

/-- The body of an `/api/attendance/add` request; `checkin`/`checkout` are
`data.get(k, '').strip()`. -/
structure AddRequest where
  faculty_id : String
  date_secs : Nat
  checkin : String
  checkout : String

/-- The record built by `api_add_attendance` (src/app.py:805-832): the
fresh record with the two supplied times validated and filled in, stopping
at the first `ValueError`. -/
def add_build_record (table : List (String × Faculty)) (fid : String) (date_secs : Nat)
    (checkin_time checkout_time : String) : Except String Rec := do
  let nr := fresh_record table fid
  let nr ←
    if checkin_time == "" then pure nr
    else
      match parseHMS checkin_time with
      | some tod => pure { nr with checkin := some (some (date_secs + tod)) }
      | none => .error "Invalid check-in time format. Use HH:MM:SS"
  if checkout_time == "" then pure nr
  else
    match parseHMS checkout_time with
    | some tod => pure { nr with checkout := some (some (date_secs + tod)) }
    | none => .error "Invalid check-out time format. Use HH:MM:SS"

/-- Embeds the body of `api_add_attendance` (src/app.py:769-864): build a
fresh record, fill in the validated times, append it, sort, and recompute
the staff id's delays. -/
def api_add_core (table : List (String × Faculty)) (req : AddRequest)
    (records : List Rec) : ApiOutcome × List Rec :=
  let fid := pyUpper (pyStrip req.faculty_id)
  let checkin_time := pyStrip req.checkin
  let checkout_time := pyStrip req.checkout
  if fid == "" then (.err "Faculty ID and date are required", records)
  else
    match add_build_record table fid req.date_secs checkin_time checkout_time with
    | .error msg => (.err msg, records)
    | .ok nr =>
      let sorted := (records ++ [nr]).mergeSort upd_sort_le
      (.ok "Successfully added new record", reassignDelays table fid req.date_secs sorted)

/-! ### Sync engine (modelled from the spec) -/

/-- Report of one sync pass: how many source files were copied for the
first time and how many were re-copied, plus the names copied. -/
structure SyncReport where
  newly_copied : Nat
  updated : Nat
  copied : List String
deriving DecidableEq

/-- Modelled from the spec: the Sync Engine's tracking-map update.  The
Sync Engine itself (spec §4.6) is code of this repository that is not
present under src/; only the spec describes it.  The tracking map
`{filename → last-seen modification timestamp}` is an association list;
updating replaces the entry for the file or appends a new one. -/
def track_update (trk : List (String × Nat)) (f : String) (m : Nat) : List (String × Nat) :=
  if trk.any (fun p => p.1 == f) then
    trk.map (fun p => if p.1 == f then (f, m) else p)
  else trk ++ [(f, m)]

/-- Modelled from the spec: one `sync()` pass (spec §4.6), over a source
directory listing of `(filename, modification time)` pairs.  For each
source file, the tracked value (sentinel epoch `0` when untracked) is
compared with its modification time; when the modification time strictly
exceeds it the file is copied (and annotated) and the tracked value
updated.  The tracking map is persisted once at the end of the pass. -/
def sync_pass : List (String × Nat) → List (String × Nat) → SyncReport × List (String × Nat)
  | [], trk => (⟨0, 0, []⟩, trk)
  | (f, m) :: rest, trk =>
    if ((trk.lookup f).getD 0) < m then
      let isNew := (trk.lookup f).isNone
      let res := sync_pass rest (track_update trk f m)
      (⟨(if isNew then res.1.newly_copied + 1 else res.1.newly_copied),
        (if isNew then res.1.updated else res.1.updated + 1),
        f :: res.1.copied⟩, res.2)
    else sync_pass rest trk

/-! ### Normalization algebra: `strip`/`upper` -/

/-- The normalized form of a staff id, as every endpoint computes it:
`value.strip().upper()`. -/
def normId (s : String) : String := pyUpper (pyStrip s)

theorem char_ofNat_valid {v : Nat} (h1 : 65 ≤ v) (h2 : v ≤ 90) : (Char.ofNat v).toNat = v := by
  interval_cases v <;> decide

theorem char_toUpper_toNat {c : Char} (h1 : 97 ≤ c.toNat) (h2 : c.toNat ≤ 122) :
    c.toUpper.toNat = c.toNat - 32 := by
  unfold Char.toUpper
  have hc : c.toNat ≥ 97 ∧ c.toNat ≤ 122 := ⟨h1, h2⟩
  simp only [hc, and_true, if_true, if_pos]
  exact char_ofNat_valid (by omega) (by omega)

theorem char_toUpper_fix {c : Char} (h : ¬(c.toNat ≥ 97 ∧ c.toNat ≤ 122)) : c.toUpper = c := by
  unfold Char.toUpper
  simp [h]

theorem char_toUpper_toUpper (c : Char) : c.toUpper.toUpper = c.toUpper := by
  by_cases h : c.toNat ≥ 97 ∧ c.toNat ≤ 122
  · have h2 := char_toUpper_toNat h.1 h.2
    apply char_toUpper_fix
    omega
  · rw [char_toUpper_fix h, char_toUpper_fix h]

theorem char_beq_eq_decide (c d : Char) : (c == d) = decide (c.toNat = d.toNat) := by
  rcases h : decide (c.toNat = d.toNat) with _ | _
  · simp only [decide_eq_false_iff_not] at h
    simp only [BEq.beq, decide_eq_false_iff_not]
    intro he
    rw [he] at h
    exact h rfl
  · simp only [decide_eq_true_eq] at h
    simp only [BEq.beq, decide_eq_true_eq]
    exact Char.ext (UInt32.eq_of_val_eq (Fin.ext h))

theorem isPySpace_eq (c : Char) :
    isPySpace c = decide (c.toNat = 32 ∨ c.toNat = 9 ∨ c.toNat = 10 ∨ c.toNat = 11 ∨
      c.toNat = 12 ∨ c.toNat = 13) := by
  unfold isPySpace
  rw [char_beq_eq_decide, char_beq_eq_decide, char_beq_eq_decide, char_beq_eq_decide,
    char_beq_eq_decide, char_beq_eq_decide]
  have e1 : (' ').toNat = 32 := rfl
  have e2 : ('\t').toNat = 9 := rfl
  have e3 : ('\n').toNat = 10 := rfl
  have e4 : ('\x0b').toNat = 11 := rfl
  have e5 : ('\x0c').toNat = 12 := rfl
  have e6 : ('\r').toNat = 13 := rfl
  rw [e1, e2, e3, e4, e5, e6]
  simp [Bool.decide_or, Bool.or_assoc]

theorem isPySpace_toUpper (c : Char) : isPySpace c.toUpper = isPySpace c := by
  by_cases h : c.toNat ≥ 97 ∧ c.toNat ≤ 122
  · have h2 := char_toUpper_toNat h.1 h.2
    rw [isPySpace_eq, isPySpace_eq, h2]
    apply decide_eq_decide.mpr
    omega
  · rw [char_toUpper_fix h]

theorem dropWhile_self_idem (p : α → Bool) (l : List α) :
    (l.dropWhile p).dropWhile p = l.dropWhile p := by
  induction l with
  | nil => rfl
  | cons a t ih =>
    by_cases h : p a
    · simp [List.dropWhile_cons, h, ih]
    · simp [List.dropWhile_cons, h]

theorem dropWhile_eq_self_of_head (p : α → Bool) (l : List α)
    (h : ∀ x, l.head? = some x → p x = false) : l.dropWhile p = l := by
  cases l with
  | nil => rfl
  | cons a t => simp [List.dropWhile_cons, h a rfl]

theorem getLast?_dropWhile_of_ne_nil (p : α → Bool) (l : List α)
    (h : l.dropWhile p ≠ []) : (l.dropWhile p).getLast? = l.getLast? := by
  induction l with
  | nil => simp at h
  | cons a t ih =>
    by_cases hp : p a
    · rw [List.dropWhile_cons, if_pos hp] at h ⊢
      rw [ih h, List.getLast?_cons]
      have ht : t ≠ [] := by
        intro he
        rw [he] at h
        exact h rfl
      cases t with
      | nil => exact absurd rfl ht
      | cons b u => simp [List.getLast?_cons]
    · rw [List.dropWhile_cons, if_neg hp]

theorem head_fails_dropWhile (p : α → Bool) (l : List α) (x : α)
    (h : (l.dropWhile p).head? = some x) : p x = false := by
  have := List.head?_dropWhile_not p l
  rw [h] at this
  exact this

/-- The character list computed by `pyStrip`. -/
def stripData (l : List Char) : List Char :=
  ((l.dropWhile isPySpace).reverse.dropWhile isPySpace).reverse

theorem pyStrip_data (s : String) : (pyStrip s).data = stripData s.data := rfl

theorem dropWhile_stripData (l : List Char) :
    (stripData l).dropWhile isPySpace = stripData l := by
  apply dropWhile_eq_self_of_head
  intro x hx
  unfold stripData at hx
  rw [List.head?_reverse] at hx
  set z := (l.dropWhile isPySpace).reverse.dropWhile isPySpace with hz
  have hzne : z ≠ [] := by
    intro he
    rw [he] at hx
    simp at hx
  have h1 : z.getLast? = (l.dropWhile isPySpace).reverse.getLast? :=
    getLast?_dropWhile_of_ne_nil _ _ hzne
  rw [h1, List.getLast?_reverse] at hx
  exact head_fails_dropWhile _ _ _ hx

theorem stripData_idem (l : List Char) : stripData (stripData l) = stripData l := by
  have h1 : (stripData l).dropWhile isPySpace = stripData l := dropWhile_stripData l
  show ((((stripData l).dropWhile isPySpace).reverse.dropWhile isPySpace)).reverse = stripData l
  rw [h1]
  unfold stripData
  rw [List.reverse_reverse, dropWhile_self_idem]

theorem pyStrip_idem (s : String) : pyStrip (pyStrip s) = pyStrip s := by
  cases s with
  | mk d =>
    show String.mk (stripData (stripData d)) = String.mk (stripData d)
    rw [stripData_idem]

theorem pyUpper_pyUpper (s : String) : pyUpper (pyUpper s) = pyUpper s := by
  cases s with
  | mk d =>
    show String.mk ((d.map Char.toUpper).map Char.toUpper) = String.mk (d.map Char.toUpper)
    rw [List.map_map]
    congr 1
    apply List.map_congr_left
    intro a _
    exact char_toUpper_toUpper a

theorem stripData_map_toUpper (l : List Char) :
    stripData (l.map Char.toUpper) = (stripData l).map Char.toUpper := by
  unfold stripData
  have hp : (isPySpace ∘ Char.toUpper) = isPySpace := by
    funext c
    exact isPySpace_toUpper c
  rw [List.dropWhile_map, hp, ← List.map_reverse, List.dropWhile_map, hp, ← List.map_reverse]

theorem pyStrip_pyUpper (s : String) : pyStrip (pyUpper s) = pyUpper (pyStrip s) := by
  cases s with
  | mk d =>
    show String.mk (stripData (d.map Char.toUpper)) = String.mk ((stripData d).map Char.toUpper)
    rw [stripData_map_toUpper]

theorem normId_idem (s : String) : normId (normId s) = normId s := by
  unfold normId
  rw [pyStrip_pyUpper, pyStrip_idem, pyUpper_pyUpper]

theorem pyUpper_normId (s : String) : pyUpper (normId s) = normId s := by
  unfold normId
  rw [pyUpper_pyUpper]

/-! ### Sorting lemmas -/

/-- The day file is sorted primarily by normalized staff id. -/
def sortedBySid (l : List Rec) : Prop := l.Pairwise (fun a b => recSid a ≤ recSid b)

theorem sid_sort_le_of (a b : Rec) (h : sid_sort_le a b = true) : recSid a ≤ recSid b := by
  simpa [sid_sort_le] using h

theorem sid_sort_trans (a b c : Rec) (h1 : sid_sort_le a b = true) (h2 : sid_sort_le b c = true) :
    sid_sort_le a c = true := by
  simp only [sid_sort_le, decide_eq_true_eq] at *
  exact le_trans h1 h2

theorem sid_sort_total (a b : Rec) : (sid_sort_le a b || sid_sort_le b a) = true := by
  simp only [sid_sort_le, Bool.or_eq_true, decide_eq_true_eq]
  exact le_total _ _

theorem upd_sort_le_iff (a b : Rec) :
    upd_sort_le a b = true ↔
      recSid a < recSid b ∨
        (recSid a = recSid b ∧ ((updKey a).1 < (updKey b).1 ∨
          ((updKey a).1 = (updKey b).1 ∧ (updKey a).2 ≤ (updKey b).2))) := by
  simp [upd_sort_le, Bool.or_eq_true, Bool.and_eq_true, decide_eq_true_eq, beq_iff_eq]

theorem upd_sort_trans (a b c : Rec) (h1 : upd_sort_le a b = true) (h2 : upd_sort_le b c = true) :
    upd_sort_le a c = true := by
  rw [upd_sort_le_iff] at *
  rcases h1 with h1 | ⟨h1e, h1k⟩
  · rcases h2 with h2 | ⟨h2e, _⟩
    · exact Or.inl (lt_trans h1 h2)
    · exact Or.inl (h2e ▸ h1)
  · rcases h2 with h2 | ⟨h2e, h2k⟩
    · exact Or.inl (h1e ▸ h2)
    · refine Or.inr ⟨h1e.trans h2e, ?_⟩
      omega

theorem upd_sort_total (a b : Rec) : (upd_sort_le a b || upd_sort_le b a) = true := by
  rw [Bool.or_eq_true, upd_sort_le_iff, upd_sort_le_iff]
  rcases lt_trichotomy (recSid a) (recSid b) with h | h | h
  · exact Or.inl (Or.inl h)
  · have : ((updKey a).1 < (updKey b).1 ∨ ((updKey a).1 = (updKey b).1 ∧
        (updKey a).2 ≤ (updKey b).2)) ∨ ((updKey b).1 < (updKey a).1 ∨
        ((updKey b).1 = (updKey a).1 ∧ (updKey b).2 ≤ (updKey a).2)) := by omega
    rcases this with hk | hk
    · exact Or.inl (Or.inr ⟨h, hk⟩)
    · exact Or.inr (Or.inr ⟨h.symm, hk⟩)
  · exact Or.inr (Or.inl h)

theorem sortedBySid_mergeSort_sid (l : List Rec) : sortedBySid (l.mergeSort sid_sort_le) := by
  have := List.sorted_mergeSort sid_sort_trans sid_sort_total l
  exact this.imp (fun h => sid_sort_le_of _ _ h)

theorem sortedBySid_mergeSort_upd (l : List Rec) : sortedBySid (l.mergeSort upd_sort_le) := by
  have := List.sorted_mergeSort upd_sort_trans upd_sort_total l
  refine this.imp (fun h => ?_)
  rw [upd_sort_le_iff] at h
  rcases h with h | ⟨h, _⟩
  · exact le_of_lt h
  · exact le_of_eq h

/-! ### List helper lemmas -/

theorem find?_enumFrom_map {α : Type} (p : α → Bool) :
    ∀ (l : List α) (n : Nat),
      ((l.enumFrom n).find? (fun x => p x.2)).map Prod.snd = l.find? p := by
  intro l
  induction l with
  | nil => intro n; rfl
  | cons a t ih =>
    intro n
    by_cases h : p a
    · simp [List.enumFrom, List.find?_cons, h]
    · simp only [List.enumFrom, List.find?_cons, h]
      simpa [h] using ih (n + 1)

theorem find?_enumFrom_some {α : Type} (p : α → Bool) :
    ∀ (l : List α) (n i : Nat) (r : α),
      (l.enumFrom n).find? (fun x => p x.2) = some (i, r) →
        n ≤ i ∧ l[i - n]? = some r ∧ p r = true := by
  intro l
  induction l with
  | nil => intro n i r h; simp [List.enumFrom] at h
  | cons a t ih =>
    intro n i r h
    by_cases hp : p a
    · simp [List.enumFrom, List.find?_cons, hp] at h
      obtain ⟨hi, hr⟩ := h
      subst hi; subst hr
      simpa using hp
    · simp only [List.enumFrom, List.find?_cons, hp] at h
      obtain ⟨hn, hl, hpr⟩ := ih (n + 1) i r h
      refine ⟨by omega, ?_, hpr⟩
      have : i - n = (i - (n + 1)) + 1 := by omega
      rw [this]
      simpa using hl

theorem countP_eraseIdx {α : Type} (p : α → Bool) :
    ∀ (l : List α) (i : Nat) (r : α), l[i]? = some r → p r = true →
      (l.eraseIdx i).countP p = l.countP p - 1 := by
  intro l
  induction l with
  | nil => intro i r h; simp at h
  | cons a t ih =>
    intro i r h hp
    cases i with
    | zero =>
      simp at h
      subst h
      simp [List.eraseIdx, List.countP_cons, hp]
    | succ j =>
      simp only [List.getElem?_cons_succ] at h
      show (a :: t.eraseIdx j).countP p = (a :: t).countP p - 1
      rw [List.countP_cons, List.countP_cons, ih j r h hp]
      have : 0 < t.countP p := by
        have hm : r ∈ t := List.getElem?_mem h
        exact List.countP_pos_iff.mpr ⟨r, hm, hp⟩
      omega

theorem idxs_length {α : Type} (p : α → Bool) :
    ∀ (l : List α) (n : Nat),
      ((((l.enumFrom n).filter (fun x => p x.2)).map Prod.fst)).length = l.countP p := by
  intro l
  induction l with
  | nil => intro n; rfl
  | cons a t ih =>
    intro n
    by_cases h : p a
    · simp only [List.enumFrom, List.filter_cons, h, if_pos]
      simp only [List.map_cons, List.length_cons, List.countP_cons, h, if_pos]
      rw [ih (n + 1)]
    · simp only [List.enumFrom, List.filter_cons, h]
      simp [List.countP_cons, h, ih (n + 1)]

theorem idxs_getElem {α : Type} (p : α → Bool) :
    ∀ (l : List α) (n j i : Nat),
      ((((l.enumFrom n).filter (fun x => p x.2)).map Prod.fst))[j]? = some i →
        ∃ r, n ≤ i ∧ l[i - n]? = some r ∧ p r = true := by
  intro l
  induction l with
  | nil => intro n j i h; simp [List.enumFrom] at h
  | cons a t ih =>
    intro n j i h
    by_cases hp : p a
    · simp only [List.enumFrom, List.filter_cons, hp, if_pos, List.map_cons] at h
      cases j with
      | zero =>
        simp at h
        subst h
        exact ⟨a, le_refl n, by simp, hp⟩
      | succ k =>
        simp only [List.getElem?_cons_succ] at h
        obtain ⟨r, hn, hl, hpr⟩ := ih (n + 1) k i h
        refine ⟨r, by omega, ?_, hpr⟩
        have : i - n = (i - (n + 1)) + 1 := by omega
        rw [this]
        simpa using hl
    · simp only [List.enumFrom, List.filter_cons, hp] at h
      simp only [Bool.false_eq_true, if_false] at h
      obtain ⟨r, hn, hl, hpr⟩ := ih (n + 1) j i h
      refine ⟨r, by omega, ?_, hpr⟩
      have : i - n = (i - (n + 1)) + 1 := by omega
      rw [this]
      simpa using hl

theorem compute_congr (g : Rec → Rec)
    (hg : ∀ r, (g r).checkin = r.checkin ∧ (g r).checkout = r.checkout)
    (l : List Rec) (d : Nat) (st : String) :
    compute_daily_delay_for_records (l.map g) d st = compute_daily_delay_for_records l d st := by
  unfold compute_daily_delay_for_records
  rw [List.filterMap_map, List.filterMap_map]
  rw [List.filterMap_congr (f := (fun r => fieldParse r.checkin) ∘ g)
      (g := fun r => fieldParse r.checkin) (fun x _ => by simp [(hg x).1]),
    List.filterMap_congr (f := (fun r => fieldParse r.checkout) ∘ g)
      (g := fun r => fieldParse r.checkout) (fun x _ => by simp [(hg x).2])]

theorem filter_map_comm (g : Rec → Rec) (p : Rec → Bool) (hp : ∀ r, p (g r) = p r)
    (l : List Rec) : (l.map g).filter p = (l.filter p).map g := by
  rw [List.filter_map]
  congr 1
  apply List.filter_congr
  intro x _
  simp [hp x]

/-! ### Delay calculator lemmas -/

theorem cast_ite_sub (x y : Nat) :
    ((if y < x then x - y else 0 : Nat) : Int) = max 0 ((x : Int) - y) := by
  split_ifs with h
  · rw [max_eq_right (by omega : (0 : Int) ≤ (x : Int) - y)]
    omega
  · rw [max_eq_left (by omega : (x : Int) - y ≤ 0)]
    simp

theorem compute_eq_delay_spec (records : List Rec) (d : Nat) (st : String) :
    compute_daily_delay_for_records records d st = delay_spec records d st := by
  unfold compute_daily_delay_for_records delay_spec
  cases hci : records.filterMap (fun r => fieldParse r.checkin) with
  | nil => rfl
  | cons c cs =>
    simp only [List.min?]
    cases hco : records.filterMap (fun r => fieldParse r.checkout) with
    | nil =>
      simp only [List.max?]
      congr 1
      rw [cast_ite_sub]
      push_cast
      ring_nf
    | cons e es =>
      simp only [List.max?]
      congr 1
      rw [cast_ite_sub, cast_ite_sub]
      push_cast
      ring_nf

theorem pad2_length_of_lt (n : Nat) (h : n < 60) : (pad2 n).length = 2 := by
  interval_cases n <;> decide

theorem s2h_ne_NA (v : Int) : seconds_to_hhmmss v ≠ "N/A" := by
  intro h
  have hlen := congrArg String.length h
  unfold seconds_to_hhmmss at hlen
  rw [String.length_append, String.length_append, String.length_append,
    String.length_append] at hlen
  rw [pad2_length_of_lt (v.toNat % 3600 / 60) (by omega),
    pad2_length_of_lt (v.toNat % 60) (by omega)] at hlen
  have hc : (":" : String).length = 1 := rfl
  have hn : ("N/A" : String).length = 3 := rfl
  rw [hc, hn] at hlen
  omega

/-! ### Claims C1, C10, C3, C2 -/

/-- Claim C1: for every list of attendance records of one staff member on
one date, `compute_daily_delay_for_records` returns `00:00:00` when no
record has a parseable checkin; otherwise, with the earliest parseable
checkin and latest parseable checkout, the lateness past the deadline
(clamped at zero) plus, when a parseable checkout exists, the earliness
before the checkout-after time (clamped at zero), formatted zero-padded;
with no parseable checkout the lateness alone is returned.  In particular
a Teaching staff member with checkin 09:40 and checkout 16:30 on a weekday
(Monday 1970-01-05) yields delay `00:15:00`. -/
theorem claim_C1 :
    (∀ (records : List Rec) (d : Nat) (st : String),
      compute_daily_delay_for_records records d st = delay_spec records d st) ∧
    compute_daily_delay_for_records
      [⟨"T1", "x", some (some (4 * 86400 + 9 * 3600 + 40 * 60)),
        some (some (4 * 86400 + 16 * 3600 + 30 * 60)), none, none⟩]
      (4 * 86400) "teaching" = "00:15:00" :=
  ⟨compute_eq_delay_spec, by decide⟩

/-- Claim C10: the delay calculator always returns a value produced by the
zero-padded `HH:MM:SS` formatter and never the sentinel `N/A` (despite its
docstring); with a parseable checkin but no parseable checkout it returns
the bare lateness duration. -/
theorem claim_C10 :
    ∀ (records : List Rec) (d : Nat) (st : String),
      (∃ n : Nat, compute_daily_delay_for_records records d st = seconds_to_hhmmss n) ∧
      compute_daily_delay_for_records records d st ≠ "N/A" ∧
      (∀ e : Nat, (records.filterMap fun r => fieldParse r.checkin).min? = some e →
        (records.filterMap fun r => fieldParse r.checkout) = [] →
        compute_daily_delay_for_records records d st =
          seconds_to_hhmmss
            (max 0 ((e : Int) - ((e / 86400 * 86400 : Nat) + (get_thresholds_for d st).1)))) := by
  intro records d st
  refine ⟨?_, ?_, ?_⟩
  · unfold compute_daily_delay_for_records
    cases records.filterMap (fun r => fieldParse r.checkin) with
    | nil => exact ⟨0, rfl⟩
    | cons c cs =>
      cases records.filterMap (fun r => fieldParse r.checkout) with
      | nil => exact ⟨_, rfl⟩
      | cons e es => exact ⟨_, rfl⟩
  · have : ∃ n : Nat, compute_daily_delay_for_records records d st = seconds_to_hhmmss n := by
      unfold compute_daily_delay_for_records
      cases records.filterMap (fun r => fieldParse r.checkin) with
      | nil => exact ⟨0, rfl⟩
      | cons c cs =>
        cases records.filterMap (fun r => fieldParse r.checkout) with
        | nil => exact ⟨_, rfl⟩
        | cons e es => exact ⟨_, rfl⟩
    obtain ⟨n, hn⟩ := this
    rw [hn]
    exact s2h_ne_NA _
  · intro e hmin hco
    rw [compute_eq_delay_spec]
    simp only [delay_spec, hmin, hco, List.max?]

/-- Witness for `claim_C10`: a Teaching record with checkin 10:00 on a
Monday and no checkout yields the bare lateness `00:35:00`. -/
theorem claim_C10_witness :
    compute_daily_delay_for_records
      [⟨"A", "x", some (some (4 * 86400 + 10 * 3600)), none, none, none⟩]
      (4 * 86400) "teaching" = "00:35:00" := by
  have h :=
    (claim_C10 [⟨"A", "x", some (some (4 * 86400 + 10 * 3600)), none, none, none⟩]
      (4 * 86400) "teaching").2.2 (4 * 86400 + 10 * 3600) (by decide) (by decide)
  rw [h]
  decide

/-- Claim C3: `get_thresholds_for` returns exactly the spec's table for
the three categories on Monday-Friday and on Saturday, the deadline is
strictly before the checkout-after time for every date, and the result is
stable, depending only on the weekday. -/
theorem claim_C3 :
    (∀ d : Nat,
      (weekdayOf d < 5 →
        get_thresholds_for d "teaching" = (9 * 3600 + 25 * 60, 16 * 3600 + 30 * 60) ∧
        get_thresholds_for d "admin" = (9 * 3600 + 15 * 60, 17 * 3600 + 15 * 60) ∧
        get_thresholds_for d "support" = (8 * 3600 + 30 * 60, 17 * 3600 + 15 * 60)) ∧
      (weekdayOf d = 5 →
        get_thresholds_for d "teaching" = (9 * 3600 + 25 * 60, 13 * 3600) ∧
        get_thresholds_for d "admin" = (9 * 3600 + 15 * 60, 13 * 3600 + 30 * 60) ∧
        get_thresholds_for d "support" = (8 * 3600 + 30 * 60, 13 * 3600 + 30 * 60)) ∧
      ((get_thresholds_for d "teaching").1 < (get_thresholds_for d "teaching").2 ∧
        (get_thresholds_for d "admin").1 < (get_thresholds_for d "admin").2 ∧
        (get_thresholds_for d "support").1 < (get_thresholds_for d "support").2)) ∧
    (∀ (d1 d2 : Nat) (st : String), weekdayOf d1 = weekdayOf d2 →
      get_thresholds_for d1 st = get_thresholds_for d2 st) := by
  constructor
  · intro d
    refine ⟨?_, ?_, ?_⟩
    · intro h5
      have hne : (weekdayOf d == 5) = false := by
        simp only [beq_eq_false_iff_ne, ne_eq]
        omega
      simp [get_thresholds_for, hne]
    · intro h5
      have he : (weekdayOf d == 5) = true := by simp [h5]
      simp [get_thresholds_for, he]
    · by_cases h5 : weekdayOf d = 5
      · have he : (weekdayOf d == 5) = true := by simp [h5]
        simp [get_thresholds_for, he]
      · have hne : (weekdayOf d == 5) = false := by simp [h5]
        simp [get_thresholds_for, hne]
  · intro d1 d2 st h
    simp [get_thresholds_for, h]

/-- Witness for `claim_C3`: the Teaching thresholds on Monday 1970-01-05
and on Saturday 1970-01-03. -/
theorem claim_C3_witness :
    get_thresholds_for (4 * 86400) "teaching" = (33900, 59400) ∧
    get_thresholds_for (2 * 86400) "teaching" = (33900, 46800) :=
  ⟨((claim_C3.1 (4 * 86400)).1 (by decide)).1, ((claim_C3.1 (2 * 86400)).2.1 (by decide)).1⟩

/-- Claim C2: `determine_staff_type` yields Teaching (`"teaching"`) for an
unknown staff id or an unrecognized category text; Support (`"support"`)
for a non-teaching category whose department mentions computer
applications or support; Administrative (`"admin"`) for a non-teaching
category otherwise; and the lookup is whitespace-trimmed and
case-insensitive. -/
theorem claim_C2 :
    ∀ (table : List (String × Faculty)) (fid : String),
      (table.lookup (normId fid) = none → determine_staff_type table fid = "teaching") ∧
      (∀ f, table.lookup (normId fid) = some f →
        (¬ strContains (pyLower (pyStrip f.category)) "non-teaching" = true →
          determine_staff_type table fid = "teaching") ∧
        (strContains (pyLower (pyStrip f.category)) "non-teaching" = true →
          ((strContains (pyLower (pyStrip f.department)) "computer applications" = true ∨
            strContains (pyLower (pyStrip f.department)) "support" = true) →
            determine_staff_type table fid = "support") ∧
          (¬ strContains (pyLower (pyStrip f.department)) "computer applications" = true →
            ¬ strContains (pyLower (pyStrip f.department)) "support" = true →
            determine_staff_type table fid = "admin"))) ∧
      determine_staff_type table fid = determine_staff_type table (normId fid) := by
  intro table fid
  refine ⟨?_, ?_, ?_⟩
  · intro h
    show determine_staff_type table fid = "teaching"
    unfold determine_staff_type
    rw [show table.lookup (pyUpper (pyStrip fid)) = none from h]
    decide
  · intro f hf
    constructor
    · intro hcat
      unfold determine_staff_type
      rw [show table.lookup (pyUpper (pyStrip fid)) = some f from hf]
      simp only [Option.map_some, Option.getD_some]
      by_cases ht : (pyLower (pyStrip f.category) == "teaching faculty") = true
      · simp [ht]
      · simp only [Bool.not_eq_true] at ht
        simp [ht, hcat]
    · intro hcat
      constructor
      · intro hdept
        unfold determine_staff_type
        rw [show table.lookup (pyUpper (pyStrip fid)) = some f from hf]
        simp only [Option.map_some, Option.getD_some]
        have ht : (pyLower (pyStrip f.category) == "teaching faculty") = false := by
          rcases hbe : (pyLower (pyStrip f.category) == "teaching faculty") with _ | _
          · rfl
          · rw [beq_iff_eq] at hbe
            rw [hbe] at hcat
            exact absurd hcat (by decide)
        rcases hdept with hd | hd
        · simp [ht, hcat, hd]
        · by_cases hca : strContains (pyLower (pyStrip f.department)) "computer applications" = true
          · simp [ht, hcat, hca]
          · simp only [Bool.not_eq_true] at hca
            simp [ht, hcat, hca, hd]
      · intro hca hsup
        unfold determine_staff_type
        rw [show table.lookup (pyUpper (pyStrip fid)) = some f from hf]
        simp only [Option.map_some, Option.getD_some]
        have ht : (pyLower (pyStrip f.category) == "teaching faculty") = false := by
          rcases hbe : (pyLower (pyStrip f.category) == "teaching faculty") with _ | _
          · rfl
          · rw [beq_iff_eq] at hbe
            rw [hbe] at hcat
            exact absurd hcat (by decide)
        simp only [Bool.not_eq_true] at hca hsup
        by_cases had : (strContains (pyLower (pyStrip f.department)) "administrative" ||
            strContains (pyLower (pyStrip f.department)) "administration") = true
        · simp [ht, hcat, hca, hsup, had]
        · simp only [Bool.not_eq_true] at had
          simp [ht, hcat, hca, hsup, had]
  · have hk : pyUpper (pyStrip (pyUpper (pyStrip fid))) = pyUpper (pyStrip fid) :=
      normId_idem fid
    show determine_staff_type table fid = determine_staff_type table (pyUpper (pyStrip fid))
    unfold determine_staff_type
    rw [hk]

/-- Witness for `claim_C2`: a non-teaching profile in Computer
Applications classifies as support even through a padded, lower-case id;
an unknown id classifies as teaching. -/
theorem claim_C2_witness :
    determine_staff_type [("X1", ⟨"nm", "Non-Teaching Faculty", "Computer Applications"⟩)]
      " x1" = "support" ∧
    determine_staff_type [] "q" = "teaching" := by
  constructor
  · exact ((((claim_C2 [("X1", ⟨"nm", "Non-Teaching Faculty", "Computer Applications"⟩)]
      " x1").2.1 ⟨"nm", "Non-Teaching Faculty", "Computer Applications"⟩ (by decide)).2
        (by decide)).1 (Or.inl (by decide)))
  · exact (claim_C2 [] "q").1 (by decide)

/-! ### Claim C7: annotation is idempotent -/

theorem normalize_row_idem (r : Rec) : normalize_row (normalize_row r) = normalize_row r := by
  rcases r with ⟨a, b, ci, co, ts, dl⟩
  unfold normalize_row
  cases ci <;> cases ts <;> cases co <;> rfl

theorem normalize_row_delay (x : Rec) (v : Option String) :
    normalize_row { x with delay := v } = { normalize_row x with delay := v } := by
  rcases x with ⟨a, b, ci, co, ts, dl⟩
  unfold normalize_row
  cases ci <;> cases ts <;> cases co <;> rfl

theorem compute_filter_assign (table : List (String × Faculty)) (d : Nat) (data : List Rec)
    (s : String) (dd : Nat) (st : String) :
    compute_daily_delay_for_records
        ((annotate_assign table d data).filter (fun y => recSid y == s)) dd st =
      compute_daily_delay_for_records (data.filter (fun y => recSid y == s)) dd st := by
  unfold annotate_assign
  rw [filter_map_comm (assignRow table d data) (fun y => recSid y == s) (fun r => rfl) data,
    compute_congr (assignRow table d data) (fun r => ⟨rfl, rfl⟩)]

theorem delay_overwrite (x : Rec) (a b : Option String) :
    ({ ({ x with delay := a } : Rec) with delay := b } : Rec) = { x with delay := b } := by
  rcases x with ⟨_, _, _, _, _, _⟩
  rfl

theorem annotate_assign_idem (table : List (String × Faculty)) (d : Nat) (data : List Rec) :
    annotate_assign table d (annotate_assign table d data) = annotate_assign table d data := by
  conv_lhs => rw [annotate_assign]
  rw [show (annotate_assign table d data) =
    data.map (assignRow table d data) from rfl, List.map_map]
  apply List.map_congr_left
  intro x _
  show assignRow table d (annotate_assign table d data) (assignRow table d data x) =
    assignRow table d data x
  have hsid : recSid (assignRow table d data x) = recSid x := rfl
  unfold assignRow
  rw [delay_overwrite]
  rw [show recSid ({ x with
      delay := some (compute_daily_delay_for_records
        (data.filter (fun y => recSid y == recSid x)) d
        (determine_staff_type table (recSid x))) } : Rec) = recSid x from rfl]
  rw [show annotate_assign table d data = data.map (assignRow table d data) from rfl,
    filter_map_comm (assignRow table d data) (fun y => recSid y == recSid x) (fun r => rfl) data,
    compute_congr (assignRow table d data) (fun r => ⟨rfl, rfl⟩)]

/-- Claim C7: `annotate_records` (the pure data transformation of
`annotate_file_with_delay` on a day file that deserializes to a list) is
idempotent: a second application returns exactly the first application's
output, hence the rewritten file is byte-identical. -/
theorem claim_C7 :
    ∀ (table : List (String × Faculty)) (d : Nat) (l : List Rec),
      annotate_records table d (annotate_records table d l) = annotate_records table d l := by
  intro table d l
  have hall : ∀ a ∈ annotate_records table d l, normalize_row a = a := by
    intro a ha
    unfold annotate_records annotate_assign at ha
    rw [List.mem_map] at ha
    obtain ⟨x, hx, rfl⟩ := ha
    rw [List.mem_map] at hx
    obtain ⟨y, _, rfl⟩ := hx
    show normalize_row (assignRow table d (l.map normalize_row) (normalize_row y)) =
      assignRow table d (l.map normalize_row) (normalize_row y)
    unfold assignRow
    rw [normalize_row_delay (normalize_row y), normalize_row_idem y]
  have hA : (annotate_records table d l).map normalize_row = annotate_records table d l := by
    calc (annotate_records table d l).map normalize_row
        = (annotate_records table d l).map id := List.map_congr_left hall
      _ = annotate_records table d l := List.map_id _
  show annotate_assign table d ((annotate_records table d l).map normalize_row) =
    annotate_records table d l
  rw [hA]
  show annotate_assign table d (annotate_assign table d (l.map normalize_row)) =
    annotate_assign table d (l.map normalize_row)
  exact annotate_assign_idem table d _

/-! ### Claim C9: sync engine -/

theorem lookup_map_update_self (f : String) (m : Nat) :
    ∀ (t : List (String × Nat)), t.any (fun p => p.1 == f) = true →
      (t.map (fun p => if p.1 == f then (f, m) else p)).lookup f = some m := by
  intro t
  induction t with
  | nil => intro h; simp at h
  | cons a s ih =>
    intro h
    obtain ⟨k, v⟩ := a
    by_cases hk : k = f
    · subst hk
      simp [List.lookup_cons]
    · have hkf : ((k, v).1 == f) = false := by simp [hk]
      simp only [List.map_cons, hkf, Bool.false_eq_true, if_false]
      rw [List.lookup_cons]
      have hfk : (f == k) = false := by simp [Ne.symm hk]
      rw [hfk]
      apply ih
      simp only [List.any_cons, hkf, Bool.false_or] at h
      exact h

theorem lookup_map_update_other (f : String) (m : Nat) (g : String) (hg : g ≠ f) :
    ∀ (t : List (String × Nat)),
      (t.map (fun p => if p.1 == f then (f, m) else p)).lookup g = t.lookup g := by
  intro t
  induction t with
  | nil => rfl
  | cons a s ih =>
    obtain ⟨k, v⟩ := a
    by_cases hk : k = f
    · subst hk
      simp only [List.map_cons, beq_self_eq_true, if_pos]
      rw [List.lookup_cons, List.lookup_cons]
      have hb : (g == k) = false := by simp [hg]
      rw [hb]
      exact ih
    · have hkf : ((k, v).1 == f) = false := by simp [hk]
      simp only [List.map_cons, hkf, Bool.false_eq_true, if_false]
      rw [List.lookup_cons, List.lookup_cons]
      cases g == k
      · exact ih
      · rfl

theorem lookup_append_one (f g : String) (m : Nat) :
    ∀ (t : List (String × Nat)),
      (t ++ [(f, m)]).lookup g =
        match t.lookup g with
        | some v => some v
        | none => if g == f then some m else none := by
  intro t
  induction t with
  | nil =>
    rw [List.nil_append, List.lookup_cons]
    simp only [List.lookup_nil]
    cases g == f <;> rfl
  | cons a s ih =>
    obtain ⟨k, v⟩ := a
    rw [List.cons_append, List.lookup_cons, List.lookup_cons]
    cases g == k
    · exact ih
    · rfl

theorem lookup_track_update (trk : List (String × Nat)) (f : String) (m : Nat) (g : String) :
    (track_update trk f m).lookup g = if g == f then some m else trk.lookup g := by
  unfold track_update
  by_cases hany : trk.any (fun p => p.1 == f) = true
  · rw [if_pos hany]
    by_cases hgf : g = f
    · subst hgf
      rw [lookup_map_update_self g m trk hany]
      simp
    · rw [lookup_map_update_other f m g hgf trk]
      have : (g == f) = false := by simp [hgf]
      rw [this]
      simp
  · simp only [Bool.not_eq_true] at hany
    rw [hany]
    simp only [Bool.false_eq_true, if_false]
    rw [lookup_append_one f g m trk]
    by_cases hgf : g = f
    · subst hgf
      have hnone : trk.lookup g = none := by
        rw [List.lookup_eq_none_iff]
        intro p hp
        have hpf : (p.1 == g) = false := by
          have := List.any_eq_false.mp hany p hp
          simpa using this
        simp only [bne_iff_ne, ne_eq]
        intro he
        rw [he] at hpf
        simp at hpf
      rw [hnone]
    · have hb : (g == f) = false := by simp [hgf]
      rw [hb]
      cases h : trk.lookup g <;> simp

theorem sync_pass_report_congr :
    ∀ (source : List (String × Nat)) (t1 t2 : List (String × Nat)),
      (∀ f ∈ source.map Prod.fst, t1.lookup f = t2.lookup f) →
      (sync_pass source t1).1 = (sync_pass source t2).1 := by
  intro source
  induction source with
  | nil => intro t1 t2 _; rfl
  | cons a rest ih =>
    intro t1 t2 h
    obtain ⟨f, m⟩ := a
    have hf : t1.lookup f = t2.lookup f := h f (by simp)
    show (sync_pass ((f, m) :: rest) t1).1 = (sync_pass ((f, m) :: rest) t2).1
    unfold sync_pass
    rw [hf]
    by_cases hc : ((t2.lookup f).getD 0) < m
    · rw [if_pos hc, if_pos hc]
      have hrest : ∀ g ∈ rest.map Prod.fst,
          (track_update t1 f m).lookup g = (track_update t2 f m).lookup g := by
        intro g hg
        rw [lookup_track_update, lookup_track_update]
        by_cases hgf : (g == f) = true
        · rw [hgf]
          rfl
        · simp only [Bool.not_eq_true] at hgf
          rw [hgf]
          simp only [Bool.false_eq_true, if_false]
          exact h g (by simp; right; simpa using hg)
      have := ih (track_update t1 f m) (track_update t2 f m) hrest
      simp only [this]
    · rw [if_neg hc, if_neg hc]
      exact ih t1 t2 (fun g hg => h g (by simp at hg ⊢; right; exact hg))

theorem sync_pass_preserve :
    ∀ (source : List (String × Nat)) (t : List (String × Nat)) (g : String),
      g ∉ source.map Prod.fst → ((sync_pass source t).2).lookup g = t.lookup g := by
  intro source
  induction source with
  | nil => intro t g _; rfl
  | cons a rest ih =>
    intro t g hg
    obtain ⟨f, m⟩ := a
    simp only [List.map_cons, List.mem_cons, not_or] at hg
    show ((sync_pass ((f, m) :: rest) t).2).lookup g = t.lookup g
    unfold sync_pass
    by_cases hc : ((t.lookup f).getD 0) < m
    · rw [if_pos hc]
      have h1 := ih (track_update t f m) g hg.2
      have h2 : (track_update t f m).lookup g = t.lookup g := by
        rw [lookup_track_update]
        have : (g == f) = false := by
          rcases h : (g == f) with _ | _
          · rfl
          · rw [beq_iff_eq] at h
            exact absurd h hg.1
        rw [this]
        simp
      exact h1.trans h2
    · rw [if_neg hc]
      exact ih t g hg.2

theorem sync_pass_tracks :
    ∀ (source : List (String × Nat)) (t : List (String × Nat)),
      (source.map Prod.fst).Nodup →
      ∀ f m, (f, m) ∈ source → m ≤ (((sync_pass source t).2).lookup f).getD 0 := by
  intro source
  induction source with
  | nil => intro t _ f m h; simp at h
  | cons a rest ih =>
    intro t hnd f m hm
    obtain ⟨g, mg⟩ := a
    simp only [List.map_cons, List.nodup_cons] at hnd
    rcases List.mem_cons.mp hm with he | hr
    · injection he with he1 he2
      subst he1; subst he2
      show m ≤ (((sync_pass ((f, m) :: rest) t).2).lookup f).getD 0
      unfold sync_pass
      by_cases hc : ((t.lookup f).getD 0) < m
      · rw [if_pos hc]
        have hpre := sync_pass_preserve rest (track_update t f m) f hnd.1
        rw [hpre, lookup_track_update]
        simp
      · rw [if_neg hc]
        have hpre := sync_pass_preserve rest t f hnd.1
        rw [hpre]
        omega
    · show m ≤ (((sync_pass ((g, mg) :: rest) t).2).lookup f).getD 0
      unfold sync_pass
      by_cases hc : ((t.lookup g).getD 0) < mg
      · rw [if_pos hc]
        exact ih (track_update t g mg) hnd.2 f m hr
      · rw [if_neg hc]
        exact ih t hnd.2 f m hr

theorem sync_pass_copied :
    ∀ (source : List (String × Nat)) (t : List (String × Nat)),
      (source.map Prod.fst).Nodup →
      ∀ f, f ∈ (sync_pass source t).1.copied ↔
        ∃ m, (f, m) ∈ source ∧ ((t.lookup f).getD 0) < m := by
  intro source
  induction source with
  | nil => intro t _ f; simp [sync_pass]
  | cons a rest ih =>
    intro t hnd f
    obtain ⟨g, mg⟩ := a
    simp only [List.map_cons, List.nodup_cons] at hnd
    show f ∈ (sync_pass ((g, mg) :: rest) t).1.copied ↔ _
    unfold sync_pass
    by_cases hc : ((t.lookup g).getD 0) < mg
    · rw [if_pos hc]
      have hcongr : (sync_pass rest (track_update t g mg)).1 = (sync_pass rest t).1 := by
        apply sync_pass_report_congr
        intro x hx
        rw [lookup_track_update]
        have : (x == g) = false := by
          rcases h : (x == g) with _ | _
          · rfl
          · rw [beq_iff_eq] at h
            subst h
            exact absurd hx hnd.1
        rw [this]
        simp
      simp only [hcongr, List.mem_cons]
      constructor
      · rintro (rfl | hmem)
        · exact ⟨mg, Or.inl rfl, hc⟩
        · obtain ⟨m, hm, hlt⟩ := (ih t hnd.2 f).mp hmem
          exact ⟨m, Or.inr hm, hlt⟩
      · rintro ⟨m, hm, hlt⟩
        rcases hm with he | hr
        · injection he with he1 _
          exact Or.inl he1
        · exact Or.inr ((ih t hnd.2 f).mpr ⟨m, hr, hlt⟩)
    · rw [if_neg hc]
      rw [ih t hnd.2 f]
      constructor
      · rintro ⟨m, hm, hlt⟩
        exact ⟨m, List.mem_cons_of_mem _ hm, hlt⟩
      · rintro ⟨m, hm, hlt⟩
        rcases List.mem_cons.mp hm with he | hr
        · injection he with he1 he2
          subst he1; subst he2
          exact absurd hlt hc
        · exact ⟨m, hr, hlt⟩

theorem sync_pass_of_tracked :
    ∀ (source : List (String × Nat)) (t : List (String × Nat)),
      (∀ f m, (f, m) ∈ source → m ≤ ((t.lookup f).getD 0)) →
      sync_pass source t = (⟨0, 0, []⟩, t) := by
  intro source
  induction source with
  | nil => intro t _; rfl
  | cons a rest ih =>
    intro t h
    obtain ⟨f, m⟩ := a
    show sync_pass ((f, m) :: rest) t = (⟨0, 0, []⟩, t)
    unfold sync_pass
    have hm : m ≤ ((t.lookup f).getD 0) := h f m (List.mem_cons_self _ _)
    rw [if_neg (by omega)]
    exact ih t (fun g mg hg => h g mg (List.mem_cons_of_mem _ hg))

/-- Claim C9 (spec-modelled): a source file is copied by a `sync_pass` if
and only if its modification time strictly exceeds the tracked value
(sentinel epoch `0` when untracked); consequently a second pass over an
unchanged source reports zero newly-copied and zero updated files. -/
theorem claim_C9 :
    ∀ (source trk : List (String × Nat)), (source.map Prod.fst).Nodup →
      (∀ f, f ∈ (sync_pass source trk).1.copied ↔
        ∃ m, (f, m) ∈ source ∧ ((trk.lookup f).getD 0) < m) ∧
      (sync_pass source (sync_pass source trk).2).1.newly_copied = 0 ∧
      (sync_pass source (sync_pass source trk).2).1.updated = 0 := by
  intro source trk hnd
  refine ⟨sync_pass_copied source trk hnd, ?_, ?_⟩ <;>
    rw [sync_pass_of_tracked source _ (fun f m hm => sync_pass_tracks source trk hnd f m hm)]

/-- Witness for `claim_C9`: a single untracked source file is copied on
the first pass; the second pass reports nothing new. -/
theorem claim_C9_witness :
    ("a" ∈ (sync_pass [("a", 5)] []).1.copied) ∧
    (sync_pass [("a", 5)] (sync_pass [("a", 5)] []).2).1.newly_copied = 0 :=
  ⟨((claim_C9 [("a", 5)] [] (by decide)).1 "a").mpr ⟨5, by decide, by decide⟩,
    (claim_C9 [("a", 5)] [] (by decide)).2.1⟩

/-! ### Claim C8: time-format validation rejects without writing -/

theorem applyTimes_ci_err (d : Nat) (nco : Option String) (r : Rec) (v : String)
    (hne : v ≠ "") (hp : parseHMS v = none) :
    applyTimes d (some v) nco r = .error "Invalid check-in time format. Use HH:MM:SS" := by
  have hv : (v == "") = false := by simp [hne]
  simp [applyTimes, applyTimeUpdate, hv, hp, Bind.bind, Except.bind]

theorem applyTimes_co_err (d : Nat) (nci : Option String) (r : Rec) (v : String)
    (hne : v ≠ "") (hp : parseHMS v = none) :
    ∃ msg, applyTimes d nci (some v) r = .error msg := by
  have hv : (v == "") = false := by simp [hne]
  cases nci with
  | none =>
    exact ⟨"Invalid check-out time format. Use HH:MM:SS",
      by simp [applyTimes, applyTimeUpdate, hv, hp, Bind.bind, Except.bind,
        Pure.pure, Except.pure]⟩
  | some w =>
    cases hw : applyTimeUpdate d w "Invalid check-in time format. Use HH:MM:SS" with
    | error e =>
      refine ⟨e, ?_⟩
      simp only [applyTimes, Bind.bind, Except.bind]
      rw [hw]
    | ok fld =>
      refine ⟨"Invalid check-out time format. Use HH:MM:SS", ?_⟩
      simp only [applyTimes, Bind.bind, Except.bind]
      rw [hw]
      simp [applyTimeUpdate, hv, hp, Pure.pure, Except.pure]

theorem add_build_ci_err (table : List (String × Faculty)) (fid : String) (d : Nat)
    (ci co : String) (hne : ci ≠ "") (hp : parseHMS ci = none) :
    add_build_record table fid d ci co = .error "Invalid check-in time format. Use HH:MM:SS" := by
  have hb : (ci == "") = false := by simp [hne]
  simp [add_build_record, hb, hp, Bind.bind, Except.bind]

theorem add_build_co_err (table : List (String × Faculty)) (fid : String) (d : Nat)
    (ci co : String) (hne : co ≠ "") (hp : parseHMS co = none) :
    ∃ msg, add_build_record table fid d ci co = .error msg := by
  have hb : (co == "") = false := by simp [hne]
  by_cases hci : (ci == "") = true
  · exact ⟨"Invalid check-out time format. Use HH:MM:SS",
      by simp [add_build_record, hci, hb, hp, Bind.bind, Except.bind, Pure.pure, Except.pure]⟩
  · simp only [Bool.not_eq_true] at hci
    rcases hpci : parseHMS ci with _ | tod
    · exact ⟨"Invalid check-in time format. Use HH:MM:SS",
        by simp [add_build_record, hci, hpci, Bind.bind, Except.bind]⟩
    · exact ⟨"Invalid check-out time format. Use HH:MM:SS",
        by simp [add_build_record, hci, hpci, hb, hp, Bind.bind, Except.bind,
          Pure.pure, Except.pure]⟩

/-- Claim C8: an update or add request whose supplied non-empty checkin or
checkout value does not parse as `HH:MM:SS` yields a failure response and
leaves the stored day file exactly as it was (its persisted contents, the
second component of the handler cores, equal the input). -/
theorem claim_C8 :
    ∀ (table : List (String × Faculty)) (records : List Rec),
      (∀ (req : UpdateRequest) (v : String), req.checkin = some v →
        (if v == "" then "" else pyStrip v) ≠ "" →
        parseHMS (if v == "" then "" else pyStrip v) = none →
        (api_update_core table req records).1.isErr = true ∧
          (api_update_core table req records).2 = records) ∧
      (∀ (req : UpdateRequest) (v : String), req.checkout = some v →
        (if v == "" then "" else pyStrip v) ≠ "" →
        parseHMS (if v == "" then "" else pyStrip v) = none →
        (api_update_core table req records).1.isErr = true ∧
          (api_update_core table req records).2 = records) ∧
      (∀ req : AddRequest, pyStrip req.checkin ≠ "" → parseHMS (pyStrip req.checkin) = none →
        (api_add_core table req records).1.isErr = true ∧
          (api_add_core table req records).2 = records) ∧
      (∀ req : AddRequest, pyStrip req.checkout ≠ "" → parseHMS (pyStrip req.checkout) = none →
        (api_add_core table req records).1.isErr = true ∧
          (api_add_core table req records).2 = records) := by
  intro table records
  refine ⟨?_, ?_, ?_, ?_⟩
  · intro req v hv hne hp
    by_cases hfid : (pyUpper (pyStrip req.faculty_id) == "") = true
    · simp [api_update_core, hfid, ApiOutcome.isErr]
    · simp only [Bool.not_eq_true] at hfid
      have hmap : req.checkin.map (fun s => if s == "" then "" else pyStrip s) =
          some (if v == "" then "" else pyStrip v) := by rw [hv]; rfl
      rcases hres : resolve_target (pyUpper (pyStrip req.faculty_id))
          { req with
            checkin := req.checkin.map (fun s => if s == "" then "" else pyStrip s),
            checkout := req.checkout.map (fun s => if s == "" then "" else pyStrip s) }
          records with _ | ⟨i, r⟩
      · simp only [api_update_core, hfid, Bool.false_eq_true, if_false, hres]
        rw [hmap, applyTimes_ci_err _ _ _ _ hne hp]
        exact ⟨rfl, rfl⟩
      · simp only [api_update_core, hfid, Bool.false_eq_true, if_false, hres]
        rw [hmap, applyTimes_ci_err _ _ _ _ hne hp]
        exact ⟨rfl, rfl⟩
  · intro req v hv hne hp
    by_cases hfid : (pyUpper (pyStrip req.faculty_id) == "") = true
    · simp [api_update_core, hfid, ApiOutcome.isErr]
    · simp only [Bool.not_eq_true] at hfid
      have hmap : req.checkout.map (fun s => if s == "" then "" else pyStrip s) =
          some (if v == "" then "" else pyStrip v) := by rw [hv]; rfl
      rcases hres : resolve_target (pyUpper (pyStrip req.faculty_id))
          { req with
            checkin := req.checkin.map (fun s => if s == "" then "" else pyStrip s),
            checkout := req.checkout.map (fun s => if s == "" then "" else pyStrip s) }
          records with _ | ⟨i, r⟩
      · simp only [api_update_core, hfid, Bool.false_eq_true, if_false, hres]
        obtain ⟨msg, hmsg⟩ := applyTimes_co_err req.date_secs
          (req.checkin.map (fun s => if s == "" then "" else pyStrip s))
          (fresh_record table (pyUpper (pyStrip req.faculty_id))) _ hne hp
        rw [hmap, hmsg]
        exact ⟨rfl, rfl⟩
      · simp only [api_update_core, hfid, Bool.false_eq_true, if_false, hres]
        obtain ⟨msg, hmsg⟩ := applyTimes_co_err req.date_secs
          (req.checkin.map (fun s => if s == "" then "" else pyStrip s)) r _ hne hp
        rw [hmap, hmsg]
        exact ⟨rfl, rfl⟩
  · intro req hne hp
    by_cases hfid : (pyUpper (pyStrip req.faculty_id) == "") = true
    · simp [api_add_core, hfid, ApiOutcome.isErr]
    · simp only [Bool.not_eq_true] at hfid
      simp only [api_add_core, hfid, Bool.false_eq_true, if_false,
        add_build_ci_err table _ _ _ _ hne hp]
      exact ⟨rfl, trivial⟩
  · intro req hne hp
    by_cases hfid : (pyUpper (pyStrip req.faculty_id) == "") = true
    · simp [api_add_core, hfid, ApiOutcome.isErr]
    · simp only [Bool.not_eq_true] at hfid
      obtain ⟨msg, hmsg⟩ := add_build_co_err table (pyUpper (pyStrip req.faculty_id))
        req.date_secs (pyStrip req.checkin) _ hne hp
      simp only [api_add_core, hfid, Bool.false_eq_true, if_false, hmsg]
      exact ⟨rfl, trivial⟩

/-- Witness for `claim_C8`: an add request with the unparseable checkin
`"9:99:00"` fails and leaves the day file unchanged. -/
theorem claim_C8_witness :
    (api_add_core [] ⟨"A", 4 * 86400, "9:99:00", ""⟩ []).1.isErr = true ∧
    (api_add_core [] ⟨"A", 4 * 86400, "9:99:00", ""⟩ []).2 = [] :=
  (claim_C8 [] []).2.2.1 ⟨"A", 4 * 86400, "9:99:00", ""⟩ (by decide) (by decide)

/-! ### Claim C4: record resolution -/

/-- The target record exactly as the sentence of claim C4 describes it:
for a checkin update, the first record of the staff id whose stored
checkin re-formatted as `HH:MM:SS` equals the claimed current checkin; for
a checkout update the same on the stored checkout, requiring additionally
the stored checkin to match the claimed current checkin when one was
supplied; with no match, the first record of the staff id. -/
def resolver_spec (fid : String) (req : UpdateRequest) (records : List Rec) : Option Rec :=
  (if req.checkin.isSome then
    records.find? (fun r =>
      recSid r == fid && fmtField r.checkin == req.current_checkin)
  else if req.checkout.isSome then
    records.find? (fun r =>
      recSid r == fid && fmtField r.checkout == req.current_checkout &&
        (req.current_checkin == "" || fmtField r.checkin == req.current_checkin))
  else none) <|> records.find? (fun r => recSid r == fid)

theorem find?_enum_map (p : Rec → Bool) (l : List Rec) :
    ((l.enum.find? (fun x => p x.2)).map Prod.snd) = l.find? p :=
  find?_enumFrom_map p l 0

theorem idxs_length_enum {α : Type} (p : α → Bool) (l : List α) :
    (((l.enum.filter (fun x => p x.2)).map Prod.fst)).length = l.countP p :=
  idxs_length p l 0

theorem idxs_getElem_enum {α : Type} (p : α → Bool) (l : List α) (j i : Nat)
    (h : (((l.enum.filter (fun x => p x.2)).map Prod.fst))[j]? = some i) :
    ∃ r, l[i]? = some r ∧ p r = true := by
  obtain ⟨r, _, hl, hp⟩ := idxs_getElem p l 0 j i h
  exact ⟨r, by simpa using hl, hp⟩

theorem map_orElse_enum (p q : Rec → Bool) (records : List Rec) :
    ((records.enum.find? (fun x => p x.2) <|> records.enum.find? (fun x => q x.2)).map
        Prod.snd) =
      (records.find? p <|> records.find? q) := by
  rcases hp : records.enum.find? (fun x => p x.2) with _ | x
  · have h2 : records.find? p = none := by
      rw [← find?_enum_map p records, hp]
      rfl
    rw [hp, h2, Option.none_orElse, Option.none_orElse]
    exact find?_enum_map q records
  · have h2 : records.find? p = some x.2 := by
      rw [← find?_enum_map p records, hp]
      rfl
    rw [hp, h2, Option.some_orElse, Option.some_orElse]
    rfl

theorem except_bind_ok {ε α β : Type} (x : Except ε α) (f : α → Except ε β) (b : β)
    (h : (x >>= f) = .ok b) : ∃ a, x = .ok a ∧ f a = .ok b := by
  cases x with
  | error e => simp [Bind.bind, Except.bind] at h
  | ok a => exact ⟨a, rfl, by simpa [Bind.bind, Except.bind] using h⟩

theorem applyTimes_ok_fields (d : Nat) (a b : Option String) (r r' : Rec)
    (h : applyTimes d a b r = .ok r') :
    r'.student_id = r.student_id ∧ r'.name = r.name ∧ r'.timestamp = r.timestamp := by
  unfold applyTimes at h
  rcases a with _ | v <;> rcases b with _ | w <;>
    simp only [Bind.bind, Except.bind, Pure.pure, Except.pure] at h
  · injection h with h1
    subst h1
    exact ⟨rfl, rfl, rfl⟩
  · rcases hau : applyTimeUpdate d w "Invalid check-out time format. Use HH:MM:SS" with e | fld <;>
      rw [hau] at h
    · simp at h
    · injection h with h1
      rw [← h1]
      exact ⟨rfl, rfl, rfl⟩
  · rcases hau : applyTimeUpdate d v "Invalid check-in time format. Use HH:MM:SS" with e | fld <;>
      rw [hau] at h
    · simp at h
    · injection h with h1
      rw [← h1]
      exact ⟨rfl, rfl, rfl⟩
  · rcases hau : applyTimeUpdate d v "Invalid check-in time format. Use HH:MM:SS" with e | fld <;>
      rw [hau] at h
    · simp at h
    · rcases hau2 : applyTimeUpdate d w "Invalid check-out time format. Use HH:MM:SS" with
        e2 | fld2 <;> rw [hau2] at h
      · simp at h
      · injection h with h1
        rw [← h1]
        exact ⟨rfl, rfl, rfl⟩

theorem reassignDelays_no_match (table : List (String × Faculty)) (fid : String) (d : Nat)
    (records l : List Rec) (nr0 : Rec)
    (hl : l.Perm (records ++ [nr0]))
    (hre : ∀ r ∈ records, (recSid r == fid) = false)
    (hnr : (recSid nr0 == fid) = true)
    (hup : pyUpper fid = fid) :
    ∃ nr, recSid nr = fid ∧ (reassignDelays table fid d l).Perm (records ++ [nr]) := by
  unfold reassignDelays
  have hmem : nr0 ∈ l := hl.mem_iff.mpr (by simp)
  have hne : l.filter (fun r => recSid r == pyUpper fid) ≠ [] := by
    apply List.ne_nil_of_mem (a := nr0)
    rw [List.mem_filter]
    refine ⟨hmem, by rw [hup]; exact hnr⟩
  have hie : (l.filter (fun r => recSid r == pyUpper fid)).isEmpty = false := by
    rcases hx : l.filter (fun r => recSid r == pyUpper fid) with _ | _
    · exact absurd hx hne
    · rfl
  simp only [hie, Bool.false_eq_true, if_false]
  set dval := compute_daily_delay_for_records (l.filter (fun r => recSid r == pyUpper fid)) d
    (determine_staff_type table fid) with hdval
  refine ⟨{ nr0 with delay := some dval }, ?_, ?_⟩
  · show recSid nr0 = fid
    exact beq_iff_eq.mp hnr
  · have hmapcongr :
        records.map (fun r => if recSid r == fid then { r with delay := some dval } else r) =
          records := by
      calc records.map (fun r => if recSid r == fid then { r with delay := some dval } else r)
          = records.map id := by
            apply List.map_congr_left
            intro r hr
            simp [hre r hr]
        _ = records := List.map_id records
    calc (l.map (fun r => if recSid r == fid then { r with delay := some dval } else r)).Perm
          ((records ++ [nr0]).map
            (fun r => if recSid r == fid then { r with delay := some dval } else r)) :=
        hl.map _
      _ = records ++ [{ nr0 with delay := some dval }] := by
        rw [List.map_append, hmapcongr]
        simp only [List.map_cons, List.map_nil]
        rw [if_pos hnr]

/-- Claim C4: the update handler's target selection equals the claim's
description (`resolver_spec`): value-matched first record, else first
record of the staff id; and when the staff id has no records at all, a
brand-new record is appended while every existing record is carried over
unchanged. -/
theorem claim_C4 :
    (∀ (fid : String) (req : UpdateRequest) (records : List Rec),
      (resolve_target fid req records).map Prod.snd = resolver_spec fid req records) ∧
    (∀ (table : List (String × Faculty)) (req : UpdateRequest) (records : List Rec),
      (∀ r ∈ records, recSid r ≠ pyUpper (pyStrip req.faculty_id)) →
      (api_update_core table req records).1.isErr = false →
      ∃ nr, recSid nr = pyUpper (pyStrip req.faculty_id) ∧
        (api_update_core table req records).2.Perm (records ++ [nr])) := by
  constructor
  · intro fid req records
    unfold resolve_target resolver_spec
    by_cases h1 : req.checkin.isSome = true
    · simp only [h1, if_true]
      exact map_orElse_enum
        (fun r => recSid r == fid && fmtField r.checkin == req.current_checkin)
        (fun r => recSid r == fid) records
    · simp only [Bool.not_eq_true] at h1
      simp only [h1, Bool.false_eq_true, if_false]
      by_cases h2 : req.checkout.isSome = true
      · simp only [h2, if_true]
        exact map_orElse_enum
          (fun r => recSid r == fid && fmtField r.checkout == req.current_checkout &&
            (req.current_checkin == "" || fmtField r.checkin == req.current_checkin))
          (fun r => recSid r == fid) records
      · simp only [Bool.not_eq_true] at h2
        simp only [h2, Bool.false_eq_true, if_false]
        rw [Option.none_orElse, Option.none_orElse]
        exact find?_enum_map (fun r => recSid r == fid) records
  · intro table req records hnone hok
    by_cases hf : (pyUpper (pyStrip req.faculty_id) == "") = true
    · exfalso
      simp [api_update_core, hf, ApiOutcome.isErr] at hok
    · simp only [Bool.not_eq_true] at hf
      have hmemsnd : ∀ x ∈ records.enum, x.2 ∈ records := by
        intro x hx
        obtain ⟨i, r⟩ := x
        obtain ⟨_, _, hr⟩ := List.mem_enumFrom hx
        show r ∈ records
        rw [hr]
        exact List.getElem_mem _
      have hbeq : ∀ r ∈ records, (recSid r == pyUpper (pyStrip req.faculty_id)) = false := by
        intro r hr
        simpa using hnone r hr
      have hres : resolve_target (pyUpper (pyStrip req.faculty_id))
          { req with
            checkin := req.checkin.map (fun s => if s == "" then "" else pyStrip s),
            checkout := req.checkout.map (fun s => if s == "" then "" else pyStrip s) }
          records = none := by
        unfold resolve_target
        have hfall : records.enum.find?
            (fun x => recSid x.2 == pyUpper (pyStrip req.faculty_id)) = none := by
          rw [List.find?_eq_none]
          intro x hx
          simp [hbeq x.2 (hmemsnd x hx)]
        have hci : records.enum.find?
            (fun x => recSid x.2 == pyUpper (pyStrip req.faculty_id) &&
              fmtField x.2.checkin == req.current_checkin) = none := by
          rw [List.find?_eq_none]
          intro x hx
          simp [hbeq x.2 (hmemsnd x hx)]
        have hco : records.enum.find?
            (fun x => recSid x.2 == pyUpper (pyStrip req.faculty_id) &&
              fmtField x.2.checkout == req.current_checkout &&
              (req.current_checkin == "" ||
                fmtField x.2.checkin == req.current_checkin)) = none := by
          rw [List.find?_eq_none]
          intro x hx
          simp [hbeq x.2 (hmemsnd x hx)]
        rw [hci, hco, hfall]
        simp
      rcases happ : applyTimes req.date_secs
          (req.checkin.map (fun s => if s == "" then "" else pyStrip s))
          (req.checkout.map (fun s => if s == "" then "" else pyStrip s))
          (fresh_record table (pyUpper (pyStrip req.faculty_id))) with e | nr0
      · exfalso
        simp only [api_update_core, hf, Bool.false_eq_true, if_false, hres, happ,
          Except.map, ApiOutcome.isErr] at hok
        exact absurd hok (by decide)
      · have hsid0 : recSid nr0 = pyUpper (pyStrip req.faculty_id) := by
          have hfld := (applyTimes_ok_fields _ _ _ _ _ happ).1
          show pyUpper (pyStrip nr0.student_id) = pyUpper (pyStrip req.faculty_id)
          rw [hfld]
          show normId (normId req.faculty_id) = normId req.faculty_id
          exact normId_idem req.faculty_id
        simp only [api_update_core, hf, Bool.false_eq_true, if_false, hres, happ, Except.map]
        exact reassignDelays_no_match table (pyUpper (pyStrip req.faculty_id)) req.date_secs
          records _ nr0 (List.mergeSort_perm _ _) hbeq (by simp [hsid0])
          (pyUpper_normId req.faculty_id)

/-- Witness for `claim_C4`: updating a staff id with no records appends a
brand-new record. -/
theorem claim_C4_witness :
    ∃ nr, recSid nr = pyUpper (pyStrip "B") ∧
      (api_update_core [] ⟨"B", 0, some "10:00:00", none, "", ""⟩ []).2.Perm ([] ++ [nr]) :=
  claim_C4.2 [] ⟨"B", 0, some "10:00:00", none, "", ""⟩ [] (by simp) (by decide)

/-! ### Claim C6: deletion leaves exactly one placeholder -/

/-- Claim C6: when a delete removes the last remaining record of a staff
id (delete-all whenever the id had records; delete-one-by-position at the
only position when exactly one record remains), the persisted file holds
exactly one placeholder record for that id: `fresh_record` with empty
checkin, empty checkout and sentinel delay `N/A`. -/
theorem claim_C6 :
    (∀ (table : List (String × Faculty)) (fidRaw : String) (records : List Rec),
      (pyUpper (pyStrip fidRaw) == "") = false →
      (∃ r ∈ records, (recSid r == pyUpper (pyStrip fidRaw)) = true) →
      (api_delete_core table fidRaw records).1.isErr = false ∧
        (api_delete_core table fidRaw records).2.filter
          (fun r => recSid r == pyUpper (pyStrip fidRaw)) =
          [fresh_record table (pyUpper (pyStrip fidRaw))]) ∧
    (∀ (table : List (String × Faculty)) (req : DeleteSpecificRequest) (records : List Rec),
      (pyUpper (pyStrip req.faculty_id) == "") = false →
      records.countP (fun r => recSid r == pyUpper (pyStrip req.faculty_id)) = 1 →
      req.record_index = 0 →
      (api_delete_specific_core table req records).1.isErr = false ∧
        (api_delete_specific_core table req records).2.filter
          (fun r => recSid r == pyUpper (pyStrip req.faculty_id)) =
          [fresh_record table (pyUpper (pyStrip req.faculty_id))]) := by
  constructor
  · intro table fidRaw records hf hex
    obtain ⟨r0, hr0, hbeq0⟩ := hex
    have hlt : (records.filter (fun r => recSid r != pyUpper (pyStrip fidRaw))).length <
        records.length := by
      rw [List.length_filter_lt_length_iff_exists]
      exact ⟨r0, hr0, by simp [hbeq0, bne]⟩
    have hrm : (records.length -
        (records.filter (fun r => recSid r != pyUpper (pyStrip fidRaw))).length == 0) =
          false := by
      simp only [beq_eq_false_iff_ne, ne_eq]
      omega
    simp only [api_delete_core, hf, Bool.false_eq_true, if_false, hrm]
    refine ⟨rfl, ?_⟩
    have hkept : (records.filter (fun r => recSid r != pyUpper (pyStrip fidRaw))).filter
        (fun r => recSid r == pyUpper (pyStrip fidRaw)) = [] := by
      rw [List.filter_eq_nil_iff]
      intro x hx
      rw [List.mem_filter] at hx
      simp only [bne_iff_ne, ne_eq] at hx
      simp [hx.2]
    have hfr : (recSid (fresh_record table (pyUpper (pyStrip fidRaw))) ==
        pyUpper (pyStrip fidRaw)) = true := by
      have : recSid (fresh_record table (pyUpper (pyStrip fidRaw))) =
          pyUpper (pyStrip fidRaw) := by
        show normId (normId fidRaw) = normId fidRaw
        exact normId_idem fidRaw
      simp [this]
    have hpermf : (((records.filter (fun r => recSid r != pyUpper (pyStrip fidRaw))) ++
        [fresh_record table (pyUpper (pyStrip fidRaw))]).mergeSort sid_sort_le).filter
          (fun r => recSid r == pyUpper (pyStrip fidRaw)) |>.Perm
            [fresh_record table (pyUpper (pyStrip fidRaw))] := by
      have h1 := (List.mergeSort_perm ((records.filter
        (fun r => recSid r != pyUpper (pyStrip fidRaw))) ++
          [fresh_record table (pyUpper (pyStrip fidRaw))]) sid_sort_le).filter
            (fun r => recSid r == pyUpper (pyStrip fidRaw))
      rw [List.filter_append, hkept, List.nil_append] at h1
      simpa [hfr] using h1
    exact List.perm_singleton.mp hpermf
  · intro table req records hf hcount hidx
    have hpu : pyUpper (pyUpper (pyStrip req.faculty_id)) = pyUpper (pyStrip req.faculty_id) :=
      pyUpper_normId req.faculty_id
    have hcount2 : records.countP
        (fun r => recSid r == pyUpper (pyUpper (pyStrip req.faculty_id))) = 1 := by
      rw [hpu]
      exact hcount
    have hlen : (((records.enum.filter
        (fun x => recSid x.2 == pyUpper (pyUpper (pyStrip req.faculty_id)))).map
          Prod.fst)).length = 1 :=
      (idxs_length_enum (fun r => recSid r == pyUpper (pyUpper (pyStrip req.faculty_id)))
        records).trans hcount2
    rcases hidxs : ((records.enum.filter
        (fun x => recSid x.2 == pyUpper (pyUpper (pyStrip req.faculty_id)))).map
          Prod.fst) with _ | ⟨a, rest'⟩
    · rw [hidxs] at hlen
      simp at hlen
    · have hrest' : rest' = [] := by
        rw [hidxs] at hlen
        simpa using hlen
      subst hrest'
      obtain ⟨r0, hr0, hp0⟩ := idxs_getElem_enum
        (fun r => recSid r == pyUpper (pyUpper (pyStrip req.faculty_id))) records 0 a
        (by rw [hidxs]; rfl)
      rw [hpu] at hp0
      have hc0 : (records.eraseIdx a).countP
          (fun r => recSid r == pyUpper (pyStrip req.faculty_id)) = 0 := by
        rw [countP_eraseIdx _ records a r0 hr0 hp0, hcount]
      have hrem : (records.eraseIdx a).filter
          (fun r => recSid r == pyUpper (pyUpper (pyStrip req.faculty_id))) = [] := by
        rw [hpu, List.filter_eq_nil_iff]
        intro x hx
        have := List.countP_eq_zero.mp hc0 x hx
        simpa using this
      have hrem1 : (records.eraseIdx a).filter
          (fun r => recSid r == pyUpper (pyStrip req.faculty_id)) = [] := by
        have h := hrem
        rw [hpu] at h
        exact h
      simp only [api_delete_specific_core, hf, Bool.false_eq_true, if_false, hidxs, hidx,
        List.isEmpty_cons, List.getElem?_cons_zero, hrem, List.isEmpty_nil, if_true]
      refine ⟨rfl, ?_⟩
      have hfr : (recSid (fresh_record table (pyUpper (pyStrip req.faculty_id))) ==
          pyUpper (pyStrip req.faculty_id)) = true := by
        have heq : recSid (fresh_record table (pyUpper (pyStrip req.faculty_id))) =
            pyUpper (pyStrip req.faculty_id) := by
          show normId (normId req.faculty_id) = normId req.faculty_id
          exact normId_idem req.faculty_id
        simp [heq]
      have h1 := (List.mergeSort_perm ((records.eraseIdx a) ++
        [fresh_record table (pyUpper (pyStrip req.faculty_id))]) sid_sort_le).filter
          (fun r => recSid r == pyUpper (pyStrip req.faculty_id))
      rw [List.filter_append, hrem1, List.nil_append] at h1
      apply List.perm_singleton.mp
      simpa [hfr] using h1

/-- Witness for `claim_C6`: deleting the only record of staff id `A`
leaves exactly the placeholder. -/
theorem claim_C6_witness :
    (api_delete_core [] "A"
      [⟨"A", "", some none, some none, none, some "00:00:00"⟩]).2.filter
        (fun r => recSid r == pyUpper (pyStrip "A")) =
      [fresh_record [] (pyUpper (pyStrip "A"))] :=
  (claim_C6.1 [] "A" [⟨"A", "", some none, some none, none, some "00:00:00"⟩]
    (by decide) ⟨⟨"A", "", some none, some none, none, some "00:00:00"⟩,
      by decide, by decide⟩).2

/-! ### Claim C5: state after each mutation kind -/

theorem filter_perm_single (l kept : List Rec) (p : Rec → Bool) (fr : Rec)
    (hl : l.Perm (kept ++ [fr])) (hkept : ∀ r ∈ kept, p r = false) (hfr : p fr = true) :
    l.filter p = [fr] := by
  apply List.perm_singleton.mp
  have h1 := hl.filter p
  rw [List.filter_append,
    show List.filter p kept = [] from
      List.filter_eq_nil_iff.mpr (by intro a ha; simp [hkept a ha])] at h1
  simpa [hfr] using h1

theorem reassignDelays_spec (table : List (String × Faculty)) (fid : String) (d : Nat)
    (l : List Rec) (hup : pyUpper fid = fid) :
    (sortedBySid l → sortedBySid (reassignDelays table fid d l)) ∧
    (∀ r ∈ reassignDelays table fid d l, recSid r = fid →
      r.delay = some (compute_daily_delay_for_records
        ((reassignDelays table fid d l).filter (fun x => recSid x == fid)) d
        (determine_staff_type table fid))) := by
  unfold reassignDelays
  rw [hup]
  by_cases hie : (l.filter (fun r => recSid r == fid)).isEmpty = true
  · simp only [hie, if_true]
    refine ⟨fun h => h, ?_⟩
    intro r hr hsid
    exfalso
    have hmem : r ∈ l.filter (fun r => recSid r == fid) :=
      List.mem_filter.mpr ⟨hr, by simp [hsid]⟩
    rw [List.isEmpty_iff.mp hie] at hmem
    simp at hmem
  · simp only [Bool.not_eq_true] at hie
    simp only [hie, Bool.false_eq_true, if_false]
    have hsidpres : ∀ r : Rec,
        recSid (if (recSid r == fid) = true then
          { r with delay := some (compute_daily_delay_for_records
            (l.filter (fun x => recSid x == fid)) d (determine_staff_type table fid)) }
        else r) = recSid r := by
      intro r
      by_cases hc : (recSid r == fid) = true
      · rw [if_pos hc]
        rfl
      · rw [if_neg hc]
    constructor
    · intro hs
      unfold sortedBySid at hs ⊢
      rw [List.pairwise_map]
      refine hs.imp ?_
      intro a b h
      rw [hsidpres a, hsidpres b]
      exact h
    · intro r hr hsid
      rw [List.mem_map] at hr
      obtain ⟨y, hy, rfl⟩ := hr
      by_cases hc : (recSid y == fid) = true
      · rw [if_pos hc]
        have hfeq : ((l.map (fun r => if (recSid r == fid) = true then
            { r with delay := some (compute_daily_delay_for_records
              (l.filter (fun x => recSid x == fid)) d (determine_staff_type table fid)) }
            else r)).filter (fun x => recSid x == fid)) =
            ((l.filter (fun x => recSid x == fid)).map
              (fun r => if (recSid r == fid) = true then
                { r with delay := some (compute_daily_delay_for_records
                  (l.filter (fun x => recSid x == fid)) d (determine_staff_type table fid)) }
                else r)) := by
          apply filter_map_comm
          intro r
          rw [hsidpres r]
        rw [hfeq, compute_congr]
        intro r
        by_cases hcr : (recSid r == fid) = true
        · rw [if_pos hcr]
          exact ⟨rfl, rfl⟩
        · rw [if_neg hcr]
          exact ⟨rfl, rfl⟩
      · rw [if_neg hc] at hsid
        exact absurd (by simp [hsid] : (recSid y == fid) = true) hc

theorem api_update_core_ok_shape (table : List (String × Faculty)) (req : UpdateRequest)
    (records : List Rec)
    (hok : (api_update_core table req records).1.isErr = false) :
    ∃ updated : List Rec, (api_update_core table req records).2 =
      reassignDelays table (pyUpper (pyStrip req.faculty_id)) req.date_secs
        (updated.mergeSort upd_sort_le) := by
  by_cases hf : (pyUpper (pyStrip req.faculty_id) == "") = true
  · exfalso
    simp [api_update_core, hf, ApiOutcome.isErr] at hok
  · simp only [Bool.not_eq_true] at hf
    rcases hres : resolve_target (pyUpper (pyStrip req.faculty_id))
        { req with
          checkin := req.checkin.map (fun s => if s == "" then "" else pyStrip s),
          checkout := req.checkout.map (fun s => if s == "" then "" else pyStrip s) }
        records with _ | ⟨i, r⟩
    · rcases happ : applyTimes req.date_secs
          (req.checkin.map (fun s => if s == "" then "" else pyStrip s))
          (req.checkout.map (fun s => if s == "" then "" else pyStrip s))
          (fresh_record table (pyUpper (pyStrip req.faculty_id))) with e | nr
      · exfalso
        simp only [api_update_core, hf, Bool.false_eq_true, if_false, hres, happ,
          Except.map, ApiOutcome.isErr] at hok
        exact absurd hok (by decide)
      · exact ⟨records ++ [nr],
          by simp only [api_update_core, hf, Bool.false_eq_true, if_false, hres, happ,
            Except.map]⟩
    · rcases happ : applyTimes req.date_secs
          (req.checkin.map (fun s => if s == "" then "" else pyStrip s))
          (req.checkout.map (fun s => if s == "" then "" else pyStrip s)) r with e | r'
      · exfalso
        simp only [api_update_core, hf, Bool.false_eq_true, if_false, hres, happ,
          Except.map, ApiOutcome.isErr] at hok
        exact absurd hok (by decide)
      · exact ⟨records.set i r',
          by simp only [api_update_core, hf, Bool.false_eq_true, if_false, hres, happ,
            Except.map]⟩

theorem api_add_core_ok_shape (table : List (String × Faculty)) (req : AddRequest)
    (records : List Rec)
    (hok : (api_add_core table req records).1.isErr = false) :
    ∃ nr, (api_add_core table req records).2 =
      reassignDelays table (pyUpper (pyStrip req.faculty_id)) req.date_secs
        ((records ++ [nr]).mergeSort upd_sort_le) := by
  by_cases hf : (pyUpper (pyStrip req.faculty_id) == "") = true
  · exfalso
    simp [api_add_core, hf, ApiOutcome.isErr] at hok
  · simp only [Bool.not_eq_true] at hf
    rcases hb : add_build_record table (pyUpper (pyStrip req.faculty_id)) req.date_secs
        (pyStrip req.checkin) (pyStrip req.checkout) with e | nr
    · exfalso
      simp only [api_add_core, hf, Bool.false_eq_true, if_false, hb, ApiOutcome.isErr] at hok
      exact absurd hok (by decide)
    · exact ⟨nr, by simp only [api_add_core, hf, Bool.false_eq_true, if_false, hb]⟩

/-- Counterexample to claim C5 as stated: a delete-one-by-position that
leaves another record of the same staff id persists that record with its
old delay field untouched (`STALE`), not the calculator's value for its
current record set (`00:35:00`). -/
theorem claim_C5_counterexample :
    (api_delete_specific_core [] ⟨"A", 0⟩
      [⟨"A", "", some (some (4 * 86400 + 9 * 3600)), none, none, some "00:35:00"⟩,
        ⟨"A", "", some (some (4 * 86400 + 10 * 3600)), none, none, some "STALE"⟩]).1.isErr =
          false ∧
    (api_delete_specific_core [] ⟨"A", 0⟩
      [⟨"A", "", some (some (4 * 86400 + 9 * 3600)), none, none, some "00:35:00"⟩,
        ⟨"A", "", some (some (4 * 86400 + 10 * 3600)), none, none, some "STALE"⟩]).2 =
      [⟨"A", "", some (some (4 * 86400 + 10 * 3600)), none, none, some "STALE"⟩] ∧
    compute_daily_delay_for_records
      [⟨"A", "", some (some (4 * 86400 + 10 * 3600)), none, none, some "STALE"⟩]
      (4 * 86400) (determine_staff_type [] "A") = "00:35:00" ∧
    some "STALE" ≠ some "00:35:00" := by
  refine ⟨by decide, ?_, by decide, by decide⟩
  calc (api_delete_specific_core [] ⟨"A", 0⟩
      [⟨"A", "", some (some (4 * 86400 + 9 * 3600)), none, none, some "00:35:00"⟩,
        ⟨"A", "", some (some (4 * 86400 + 10 * 3600)), none, none, some "STALE"⟩]).2
      = List.mergeSort
          [⟨"A", "", some (some (4 * 86400 + 10 * 3600)), none, none, some "STALE"⟩]
          sid_sort_le := by rfl
    _ = [⟨"A", "", some (some (4 * 86400 + 10 * 3600)), none, none, some "STALE"⟩] :=
        List.mergeSort_singleton _

/-- Claim C5 (amended): after update and add mutations the persisted
records are sorted primarily by staff id and every record of the mutated
staff id carries the delay freshly recomputed from that id's current
records; the delete mutations re-sort by staff id but recompute no delay:
delete-all persists exactly the sentinel placeholder for the id, and
delete-one-by-position persists only surviving original records (plus the
placeholder when none survive), their delay fields untouched. -/
theorem claim_C5 :
    (∀ (table : List (String × Faculty)) (req : UpdateRequest) (records : List Rec),
      (api_update_core table req records).1.isErr = false →
      sortedBySid (api_update_core table req records).2 ∧
      (∀ r ∈ (api_update_core table req records).2,
        recSid r = pyUpper (pyStrip req.faculty_id) →
        r.delay = some (compute_daily_delay_for_records
          ((api_update_core table req records).2.filter
            (fun x => recSid x == pyUpper (pyStrip req.faculty_id))) req.date_secs
          (determine_staff_type table (pyUpper (pyStrip req.faculty_id)))))) ∧
    (∀ (table : List (String × Faculty)) (req : AddRequest) (records : List Rec),
      (api_add_core table req records).1.isErr = false →
      sortedBySid (api_add_core table req records).2 ∧
      (∀ r ∈ (api_add_core table req records).2,
        recSid r = pyUpper (pyStrip req.faculty_id) →
        r.delay = some (compute_daily_delay_for_records
          ((api_add_core table req records).2.filter
            (fun x => recSid x == pyUpper (pyStrip req.faculty_id))) req.date_secs
          (determine_staff_type table (pyUpper (pyStrip req.faculty_id)))))) ∧
    (∀ (table : List (String × Faculty)) (fidRaw : String) (records : List Rec),
      (api_delete_core table fidRaw records).1.isErr = false →
      sortedBySid (api_delete_core table fidRaw records).2 ∧
      (api_delete_core table fidRaw records).2.filter
        (fun r => recSid r == pyUpper (pyStrip fidRaw)) =
        [fresh_record table (pyUpper (pyStrip fidRaw))]) ∧
    (∀ (table : List (String × Faculty)) (req : DeleteSpecificRequest) (records : List Rec),
      (api_delete_specific_core table req records).1.isErr = false →
      sortedBySid (api_delete_specific_core table req records).2 ∧
      (∀ r ∈ (api_delete_specific_core table req records).2,
        r ∈ records ∨ r = fresh_record table (pyUpper (pyStrip req.faculty_id)))) := by
  refine ⟨?_, ?_, ?_, ?_⟩
  · intro table req records hok
    obtain ⟨updated, hshape⟩ := api_update_core_ok_shape table req records hok
    rw [hshape]
    have hs := reassignDelays_spec table (pyUpper (pyStrip req.faculty_id)) req.date_secs
      (updated.mergeSort upd_sort_le) (pyUpper_normId req.faculty_id)
    exact ⟨hs.1 (sortedBySid_mergeSort_upd updated), hs.2⟩
  · intro table req records hok
    obtain ⟨nr, hshape⟩ := api_add_core_ok_shape table req records hok
    rw [hshape]
    have hs := reassignDelays_spec table (pyUpper (pyStrip req.faculty_id)) req.date_secs
      ((records ++ [nr]).mergeSort upd_sort_le) (pyUpper_normId req.faculty_id)
    exact ⟨hs.1 (sortedBySid_mergeSort_upd _), hs.2⟩
  · intro table fidRaw records hok
    by_cases hf : (pyUpper (pyStrip fidRaw) == "") = true
    · exfalso
      simp [api_delete_core, hf, ApiOutcome.isErr] at hok
    · simp only [Bool.not_eq_true] at hf
      by_cases hrm : (records.length -
          (records.filter (fun r => recSid r != pyUpper (pyStrip fidRaw))).length == 0) = true
      · exfalso
        simp only [api_delete_core, hf, Bool.false_eq_true, if_false, hrm, if_true,
          ApiOutcome.isErr] at hok
        exact absurd hok (by decide)
      · simp only [Bool.not_eq_true] at hrm
        simp only [api_delete_core, hf, Bool.false_eq_true, if_false, hrm]
        refine ⟨sortedBySid_mergeSort_sid _, ?_⟩
        apply filter_perm_single _ _ _ _ (List.mergeSort_perm _ _)
        · intro r hr
          rw [List.mem_filter] at hr
          have := hr.2
          simp only [bne_iff_ne, ne_eq] at this
          simp [this]
        · have heq : recSid (fresh_record table (pyUpper (pyStrip fidRaw))) =
              pyUpper (pyStrip fidRaw) := by
            show normId (normId fidRaw) = normId fidRaw
            exact normId_idem fidRaw
          simp [heq]
  · intro table req records hok
    by_cases hf : (pyUpper (pyStrip req.faculty_id) == "") = true
    · exfalso
      simp [api_delete_specific_core, hf, ApiOutcome.isErr] at hok
    · simp only [Bool.not_eq_true] at hf
      rcases hidxs : ((records.enum.filter
          (fun x => recSid x.2 == pyUpper (pyUpper (pyStrip req.faculty_id)))).map
            Prod.fst) with _ | ⟨a, rest⟩
      · exfalso
        simp only [api_delete_specific_core, hf, Bool.false_eq_true, if_false, hidxs,
          List.isEmpty_nil, if_true, ApiOutcome.isErr] at hok
        exact absurd hok (by decide)
      · rcases hg : (a :: rest)[req.record_index]? with _ | actual
        · exfalso
          simp only [api_delete_specific_core, hf, Bool.false_eq_true, if_false, hidxs,
            List.isEmpty_cons, hg, ApiOutcome.isErr] at hok
          exact absurd hok (by decide)
        · by_cases hremE : ((records.eraseIdx actual).filter
              (fun r => recSid r == pyUpper (pyUpper (pyStrip req.faculty_id)))).isEmpty = true
          · simp only [api_delete_specific_core, hf, Bool.false_eq_true, if_false, hidxs,
              List.isEmpty_cons, hg, hremE, if_true]
            refine ⟨sortedBySid_mergeSort_sid _, ?_⟩
            intro r hr
            have hmem := (List.mergeSort_perm _ sid_sort_le).mem_iff.mp hr
            rcases List.mem_append.mp hmem with hin | hin
            · exact Or.inl (List.eraseIdx_subset records actual hin)
            · right
              simpa using hin
          · simp only [Bool.not_eq_true] at hremE
            simp only [api_delete_specific_core, hf, Bool.false_eq_true, if_false, hidxs,
              List.isEmpty_cons, hg, hremE]
            refine ⟨sortedBySid_mergeSort_sid _, ?_⟩
            intro r hr
            have hmem := (List.mergeSort_perm _ sid_sort_le).mem_iff.mp hr
            exact Or.inl (List.eraseIdx_subset records actual hmem)

/-- Witness for `claim_C5`: the delete-all conjunct at a one-record file. -/
theorem claim_C5_witness :
    sortedBySid (api_delete_core [] "A"
      [⟨"A", "", some none, some none, none, some "00:00:00"⟩]).2 ∧
    (api_delete_core [] "A"
      [⟨"A", "", some none, some none, none, some "00:00:00"⟩]).2.filter
        (fun r => recSid r == pyUpper (pyStrip "A")) =
      [fresh_record [] (pyUpper (pyStrip "A"))] :=
  claim_C5.2.2.1 [] "A" [⟨"A", "", some none, some none, none, some "00:00:00"⟩] (by decide)

example : parseHMS "09:40:00" = some 34800 := by decide
example : parseHMS "9:5:3" = some 32703 := by decide
example : parseHMS "24:00:00" = none := by decide
example : parseHMS "09:40" = none := by decide
example : parseHMS "" = none := by decide
example : seconds_to_hhmmss 900 = "00:15:00" := by decide
example : strftimeHMS (4 * 86400 + 34800) = "09:40:00" := by decide
example :
    compute_daily_delay_for_records
      [⟨"T1", "x", some (some (4 * 86400 + 34800)), some (some (4 * 86400 + 59400)), none, none⟩]
      (4 * 86400) "teaching" = "00:15:00" := by decide
example : determine_staff_type [("X1", ⟨"n", "Non-Teaching Faculty", "Computer Applications"⟩)] "x1 "
    = "support" := by decide
example : determine_staff_type [] "ZZ" = "teaching" := by decide
